import Mathlib

/-!
Verification of the datediff library (calendar difference decomposition and
format-string rendering).

The Go code consumes `time.Time` values at day granularity and uses only their
civil-calendar interface: `Year()`, `Before`, `After`, `Equal`, and
`AddDate(years, months, days)`.  We embed a date as its absolute day number
(rata die, day 0 = 0001-01-01 of the proleptic Gregorian calendar, the
calendar implemented by Go's `time` package).  `AddDate` is embedded exactly
as Go computes it: extract the civil triple, normalise the month into the
year with floor semantics, and add the day offset linearly.
-/

namespace Datediff

/-- Proleptic Gregorian leap-year test, as in Go's `time.isLeap`. -/
def isLeap (y : Int) : Bool := y % 4 == 0 && (y % 100 != 0 || y % 400 == 0)

/-- Absolute day number of January 1 of year `y` (day 0 = 0001-01-01). -/
def yearStart (y : Int) : Int :=
  365 * (y - 1) + (y - 1) / 4 - (y - 1) / 100 + (y - 1) / 400

/-- Days strictly before month `m` (1..12; `m = 13` gives the year length)
in a year of the given leapness. -/
def daysBeforeMonth (leap : Bool) (m : Int) : Int :=
  (367 * m - 362) / 12 - (if m ≤ 2 then 0 else if leap then 1 else 2)

/-- Length of month `m` of year `y`. -/
def daysInMonth (y m : Int) : Int :=
  daysBeforeMonth (isLeap y) (m + 1) - daysBeforeMonth (isLeap y) m

/-- Absolute day number of the civil date `(y, m, d)`; `m` must be in 1..12,
`d` is arbitrary (Go's `time.Date` adds the day field linearly). -/
def daysFromCivil (y m d : Int) : Int :=
  yearStart y + daysBeforeMonth (isLeap y) m + (d - 1)

/-- Year containing absolute day `n`: a closed-form estimate refined by at
most two corrections. -/
def yearOf (n : Int) : Int :=
  if n < yearStart (400 * n / 146097 + 1) then 400 * n / 146097
  else if n < yearStart (400 * n / 146097 + 2) then 400 * n / 146097 + 1
  else 400 * n / 146097 + 2

/-- Month from a 0-based day-of-year offset. -/
def monthFromDoy (leap : Bool) (doy : Int) : Int :=
  (12 * (doy + (if doy < (if leap then 60 else 59) then 0
                else if leap then 1 else 2)) + 373) / 367

/-- Month containing absolute day `n`. -/
def monthOf (n : Int) : Int :=
  monthFromDoy (isLeap (yearOf n)) (n - yearStart (yearOf n))

/-- Day of month of absolute day `n`. -/
def dayOf (n : Int) : Int :=
  n - yearStart (yearOf n) - daysBeforeMonth (isLeap (yearOf n)) (monthOf n) + 1

/-- Start day of the month with linear index `k`; the month `(y, m)` with
`1 ≤ m ≤ 12` has index `12 * y + (m - 1)`. -/
def monthStart (k : Int) : Int :=
  yearStart (k / 12) + daysBeforeMonth (isLeap (k / 12)) (k % 12 + 1)

/-- Go `time.Time.AddDate(years, months, days)`: the civil triple is
extracted, the month is normalised into the year with floor semantics
(Go `norm`), and the day field is added linearly (Go `time.Date`). -/
def addDate (t years months days : Int) : Int :=
  daysFromCivil ((12 * (yearOf t + years) + (monthOf t - 1) + months) / 12)
    ((12 * (yearOf t + years) + (monthOf t - 1) + months) % 12 + 1)
    (dayOf t + days)

/-- Linear month index of the month containing day `t`. -/
def monthLin (t : Int) : Int := 12 * yearOf t + (monthOf t - 1)

/-! ## src/datediff.go: modes, the decomposition loops, and construction -/

/-- `ModeYears = 1 << (8 - 1)` from src/datediff.go. -/
def ModeYears : Nat := 128

/-- `ModeMonths = 1 << (8 - 2)` from src/datediff.go. -/
def ModeMonths : Nat := 64

/-- `ModeWeeks = 1 << (8 - 3)` from src/datediff.go. -/
def ModeWeeks : Nat := 32

/-- `ModeDays = 1 << (8 - 4)` from src/datediff.go. -/
def ModeDays : Nat := 16

/-- `fullYearsDiff` from src/datediff.go: the calendar-year difference,
decremented by one when advancing `start` by that many years overshoots
`end`. -/
def fullYearsDiff (start endd : Int) : Int :=
  if endd < addDate start (yearOf endd - yearOf start) 0 0
  then yearOf endd - yearOf start - 1
  else yearOf endd - yearOf start

/-- Loop of `fullMonthsDiff` from src/datediff.go.  The Go `for` loop needs
no fuel; here `fuel` is an upper bound on the iteration count, valid because
adding a month advances the date by at least 28 days. -/
def fullMonthsDiffAux (start endd : Int) : Nat → Int → Int
  | 0, months => months
  | fuel + 1, months =>
    if addDate start 0 (months + 1) 0 ≤ endd
    then fullMonthsDiffAux start endd fuel (months + 1)
    else months

/-- `fullMonthsDiff` from src/datediff.go: counts whole months while
`start.AddDate(0, months+1, 0)` is before or equal to `end`. -/
def fullMonthsDiff (start endd : Int) : Int :=
  fullMonthsDiffAux start endd ((endd - start).toNat + 1) 0

/-- Loop of `fullWeeksDiff` from src/datediff.go, carrying the `weeks` and
`days` accumulators. -/
def fullWeeksDiffAux (start endd : Int) : Nat → Int → Int → Int
  | 0, weeks, _ => weeks
  | fuel + 1, weeks, days =>
    if addDate start 0 0 days ≤ endd
    then fullWeeksDiffAux start endd fuel (weeks + 1) (days + 7)
    else weeks

/-- `fullWeeksDiff` from src/datediff.go. -/
def fullWeeksDiff (start endd : Int) : Int :=
  fullWeeksDiffAux start endd ((endd - start).toNat + 1) 0 7

/-- Loop of `fullDaysDiff` from src/datediff.go. -/
def fullDaysDiffAux (start endd : Int) : Nat → Int → Int
  | 0, days => days
  | fuel + 1, days =>
    if addDate start 0 0 (days + 1) ≤ endd
    then fullDaysDiffAux start endd fuel (days + 1)
    else days

/-- `fullDaysDiff` from src/datediff.go. -/
def fullDaysDiff (start endd : Int) : Int :=
  fullDaysDiffAux start endd ((endd - start).toNat + 1) 0

/-- The `Diff` struct of src/datediff.go. -/
structure Diff where
  Years : Int
  Months : Int
  Weeks : Int
  Days : Int
  rawFormat : List Char
  mode : Nat
deriving DecidableEq

/-- `newDiff` from src/datediff.go: sequential unit-conditional decomposition
advancing a cursor date.  The Go local mutation of `start` is rendered as the
cursor chain `start1`, `start2`, `start3`. -/
def newDiff (start endd : Int) (mode : Nat) : Diff :=
  let years := if mode &&& ModeYears ≠ 0 then fullYearsDiff start endd else 0
  let start1 := if mode &&& ModeYears ≠ 0 then addDate start years 0 0 else start
  let iyears := if mode &&& ModeMonths ≠ 0 then
      (if mode &&& ModeYears = 0 then fullYearsDiff start1 endd else 0) else 0
  let months := if mode &&& ModeMonths ≠ 0 then
      iyears * 12 + fullMonthsDiff (addDate start1 iyears 0 0) endd else 0
  let start2 := if mode &&& ModeMonths ≠ 0 then addDate start1 0 months 0 else start1
  let weeks := if mode &&& ModeWeeks ≠ 0 then fullWeeksDiff start2 endd else 0
  let start3 := if mode &&& ModeWeeks ≠ 0 then addDate start2 0 0 (weeks * 7) else start2
  let days := if mode &&& ModeDays ≠ 0 then fullDaysDiff start3 endd else 0
  { Years := years, Months := months, Weeks := weeks, Days := days,
    rawFormat := [], mode := mode }

/-- Errors of src/datediff.go; the unknown-verb error carries the format
string and offending character echoed by Go's error message. -/
inductive DiffError
  | startIsAfterEnd
  | undefinedDiffMode
  | unknownVerb (format : List Char) (verb : Char)
deriving DecidableEq

/-- Result of the scanning loop inside `unmarshal`; `panicked` records the
out-of-bounds string index Go performs when a `'%'` is the final character. -/
inductive ScanResult
  | done (mode : Nat)
  | unknown (c : Char)
  | panicked
deriving DecidableEq

/-- Result of `unmarshal`. -/
inductive UnmarshalResult
  | ok (mode : Nat)
  | err (e : DiffError)
  | panicked
deriving DecidableEq

/-- The scanning loop of `unmarshal` (src/datediff.go): skip to the next
`'%'`, then read the immediately following byte as the verb and continue
after it.  When the `'%'` is the last character, Go evaluates
`rawFormat[i]` with `i = len(rawFormat)`, a runtime panic, modelled by
`ScanResult.panicked`. -/
def unmarshalScan : List Char → Nat → ScanResult
  | [], mode => .done mode
  | c :: rest, mode =>
    if c = '%' then
      match rest with
      | [] => .panicked
      | v :: rest2 =>
        if v = 'Y' ∨ v = 'y' then unmarshalScan rest2 (mode ||| ModeYears)
        else if v = 'M' ∨ v = 'm' then unmarshalScan rest2 (mode ||| ModeMonths)
        else if v = 'W' ∨ v = 'w' then unmarshalScan rest2 (mode ||| ModeWeeks)
        else if v = 'D' ∨ v = 'd' then unmarshalScan rest2 (mode ||| ModeDays)
        else .unknown v
    else unmarshalScan rest mode

/-- `unmarshal` from src/datediff.go. -/
def unmarshal (rawFormat : List Char) : UnmarshalResult :=
  match unmarshalScan rawFormat 0 with
  | .panicked => .panicked
  | .unknown c => .err (.unknownVerb rawFormat c)
  | .done mode => if mode = 0 then .err .undefinedDiffMode else .ok mode

/-- Result of the construction entry points. -/
inductive ConstructResult
  | ok (d : Diff)
  | err (e : DiffError)
  | panicked
deriving DecidableEq

/-- `NewDiff` from src/datediff.go. -/
def NewDiff (start endd : Int) (rawFormat : List Char) : ConstructResult :=
  if endd < start then .err .startIsAfterEnd
  else
    match unmarshal rawFormat with
    | .panicked => .panicked
    | .err e => .err e
    | .ok mode =>
      let d := newDiff start endd mode
      .ok { d with rawFormat := rawFormat }

/-- `NewDiffWithMode` from src/datediff.go. -/
def NewDiffWithMode (start endd : Int) (mode : Nat) : ConstructResult :=
  if endd < start then .err .startIsAfterEnd
  else .ok (newDiff start endd mode)

/-- `Diff.Equal` from src/datediff.go: compares only the four counts. -/
def Diff.Equal (d other : Diff) : Bool :=
  d.Years == other.Years && d.Months == other.Months &&
  d.Weeks == other.Weeks && d.Days == other.Days

/-! ## Value and cursor chain of `newDiff`, named for reasoning -/

def dYears (s e : Int) (mode : Nat) : Int :=
  if mode &&& ModeYears ≠ 0 then fullYearsDiff s e else 0

def dCursor1 (s e : Int) (mode : Nat) : Int :=
  if mode &&& ModeYears ≠ 0 then addDate s (dYears s e mode) 0 0 else s

def dIYears (s e : Int) (mode : Nat) : Int :=
  if mode &&& ModeMonths ≠ 0 then
    (if mode &&& ModeYears = 0 then fullYearsDiff (dCursor1 s e mode) e else 0)
  else 0

def dMonths (s e : Int) (mode : Nat) : Int :=
  if mode &&& ModeMonths ≠ 0 then
    dIYears s e mode * 12 +
      fullMonthsDiff (addDate (dCursor1 s e mode) (dIYears s e mode) 0 0) e
  else 0

def dCursor2 (s e : Int) (mode : Nat) : Int :=
  if mode &&& ModeMonths ≠ 0 then addDate (dCursor1 s e mode) 0 (dMonths s e mode) 0
  else dCursor1 s e mode

def dWeeks (s e : Int) (mode : Nat) : Int :=
  if mode &&& ModeWeeks ≠ 0 then fullWeeksDiff (dCursor2 s e mode) e else 0

def dCursor3 (s e : Int) (mode : Nat) : Int :=
  if mode &&& ModeWeeks ≠ 0 then addDate (dCursor2 s e mode) 0 0 (dWeeks s e mode * 7)
  else dCursor2 s e mode

def dDays (s e : Int) (mode : Nat) : Int :=
  if mode &&& ModeDays ≠ 0 then fullDaysDiff (dCursor3 s e mode) e else 0

/-! ## Overflow analysis of the year-advanced cursor -/

/-- Length of the month with linear index `L`. -/
def dimLin (L : Int) : Int := monthStart (L + 1) - monthStart L

/-! ## src/format.go -/

/-- Does `pat` occur at the head of `s`?  (`strings.HasPrefix`.) -/
def prefixMatch : List Char → List Char → Bool
  | [], _ => true
  | _ :: _, [] => false
  | p :: ps, c :: cs => p == c && prefixMatch ps cs

/-- `strings.Contains s pat`. -/
def containsSub : List Char → List Char → Bool
  | [], pat => prefixMatch pat []
  | c :: rest, pat => prefixMatch pat (c :: rest) || containsSub rest pat

/-- Loop of `strings.ReplaceAll`: scan left to right, replacing
non-overlapping occurrences.  `fuel` bounds the scan length. -/
def replaceAllAux (pat rep : List Char) : Nat → List Char → List Char
  | 0, s => s
  | _ + 1, [] => []
  | fuel + 1, c :: rest =>
    if prefixMatch pat (c :: rest) then
      rep ++ replaceAllAux pat rep fuel ((c :: rest).drop pat.length)
    else c :: replaceAllAux pat rep fuel rest

/-- `strings.ReplaceAll s pat rep`.  The library only replaces non-empty
verb patterns; for an empty pattern we keep `s` (Go would instead interleave
`rep`, a case the library never exercises). -/
def replaceAll (s pat rep : List Char) : List Char :=
  if pat.isEmpty then s else replaceAllAux pat rep s.length s

def digitChar (n : Nat) : Char :=
  if n = 0 then '0' else if n = 1 then '1' else if n = 2 then '2'
  else if n = 3 then '3' else if n = 4 then '4' else if n = 5 then '5'
  else if n = 6 then '6' else if n = 7 then '7' else if n = 8 then '8' else '9'

def natChars : Nat → Nat → List Char
  | 0, _ => []
  | fuel + 1, n =>
    if n < 10 then [digitChar n]
    else natChars fuel (n / 10) ++ [digitChar (n % 10)]

/-- `strconv.Itoa`: decimal representation of an integer. -/
def itoa (n : Int) : List Char :=
  if n < 0 then '-' :: natChars (n.natAbs + 1) n.natAbs
  else natChars (n.natAbs + 1) n.natAbs

/-- The `formatUnits` map of src/format.go as an association list.  Go's map
iteration order is unspecified; this fold fixes one order.  Replacement text
never contains `'%'`, so no pass can create a verb occurrence for a later
pass. -/
def formatUnits : List (List Char × List Char) :=
  [(['%', 'Y'], ['y', 'e', 'a', 'r']), (['%', 'y'], ['y', 'e', 'a', 'r']),
   (['%', 'M'], ['m', 'o', 'n', 't', 'h']), (['%', 'm'], ['m', 'o', 'n', 't', 'h']),
   (['%', 'W'], ['w', 'e', 'e', 'k']), (['%', 'w'], ['w', 'e', 'e', 'k']),
   (['%', 'D'], ['d', 'a', 'y']), (['%', 'd'], ['d', 'a', 'y'])]

/-- The `switch unit` of `frmt` in src/format.go selecting the count. -/
def unitCount (diff : Diff) (unit : List Char) : Int :=
  if unit = ['y', 'e', 'a', 'r'] then diff.Years
  else if unit = ['m', 'o', 'n', 't', 'h'] then diff.Months
  else if unit = ['w', 'e', 'e', 'k'] then diff.Weeks
  else if unit = ['d', 'a', 'y'] then diff.Days
  else 0

/-- `formatNoun` from src/format.go: a number and the noun, pluralized with a
trailing `s` unless the number is one. -/
def formatNoun (n : Int) (s : List Char) : List Char :=
  itoa n ++ ' ' :: (s ++ (if n ≠ 1 then ['s'] else []))

/-- `rune(verb[1])` upper-case test; every verb in `formatUnits` has two
characters. -/
def verbIsUpper (verb : List Char) : Bool :=
  match verb with
  | _ :: r :: _ => r.isUpper
  | _ => false

/-- `verbReplace` from src/format.go. -/
def verbReplace (s : List Char) (n : Int) (verb unit : List Char) : List Char :=
  replaceAll s verb (if verbIsUpper verb then formatNoun n unit else itoa n)

/-- `zeroVerbReplace` from src/format.go: drop the verb together with one
adjacent leading space. -/
def zeroVerbReplace (s verb : List Char) : List Char :=
  replaceAll (replaceAll s (' ' :: verb) []) verb []

/-- `format` from src/format.go (zero-eliding rendering): `frmt` with the
eliding callback, one pass per verb of `formatUnits`. -/
def format (diff : Diff) (rawFormat : List Char) : List Char :=
  formatUnits.foldl
    (fun result vu =>
      if containsSub rawFormat vu.1 then
        (if unitCount diff vu.2 = 0 then zeroVerbReplace result vu.1
         else verbReplace result (unitCount diff vu.2) vu.1 vu.2)
      else result)
    rawFormat

/-- `formatWithZeros` from src/format.go: literal substitution, zeros kept. -/
def formatWithZeros (diff : Diff) (rawFormat : List Char) : List Char :=
  formatUnits.foldl
    (fun result vu =>
      if containsSub rawFormat vu.1 then
        verbReplace result (unitCount diff vu.2) vu.1 vu.2
      else result)
    rawFormat

/-! ## Canonical space-separated verb formats, for the rendering claims -/

inductive FVerb
  | vY | vy | vM | vm | vW | vw | vD | vd
deriving DecidableEq

def fvLetter : FVerb → Char
  | .vY => 'Y'
  | .vy => 'y'
  | .vM => 'M'
  | .vm => 'm'
  | .vW => 'W'
  | .vw => 'w'
  | .vD => 'D'
  | .vd => 'd'

def fvChars (v : FVerb) : List Char := ['%', fvLetter v]

def fvUnit : FVerb → List Char
  | .vY => ['y', 'e', 'a', 'r']
  | .vy => ['y', 'e', 'a', 'r']
  | .vM => ['m', 'o', 'n', 't', 'h']
  | .vm => ['m', 'o', 'n', 't', 'h']
  | .vW => ['w', 'e', 'e', 'k']
  | .vw => ['w', 'e', 'e', 'k']
  | .vD => ['d', 'a', 'y']
  | .vd => ['d', 'a', 'y']

def fvCount (diff : Diff) : FVerb → Int
  | .vY => diff.Years
  | .vy => diff.Years
  | .vM => diff.Months
  | .vm => diff.Months
  | .vW => diff.Weeks
  | .vw => diff.Weeks
  | .vD => diff.Days
  | .vd => diff.Days

/-- Rendering of one verb occurrence: counted noun for uppercase verbs, bare
number for lowercase verbs. -/
def fvRender (diff : Diff) (v : FVerb) : List Char :=
  if (fvLetter v).isUpper then formatNoun (fvCount diff v) (fvUnit v)
  else itoa (fvCount diff v)

def canonTail : List FVerb → List Char
  | [] => []
  | v :: rest => ' ' :: (fvChars v ++ canonTail rest)

/-- A format string of verbs separated by single spaces. -/
def canonFormat : List FVerb → List Char
  | [] => []
  | v :: rest => fvChars v ++ canonTail rest

def expectedZerosTail (diff : Diff) : List FVerb → List Char
  | [] => []
  | v :: rest => ' ' :: (fvRender diff v ++ expectedZerosTail diff rest)

/-- Expected non-eliding render: every verb substituted literally, zeros
included. -/
def expectedZeros (diff : Diff) : List FVerb → List Char
  | [] => []
  | v :: rest => fvRender diff v ++ expectedZerosTail diff rest

def expectedElideTail (diff : Diff) : List FVerb → List Char
  | [] => []
  | v :: rest =>
    if fvCount diff v = 0 then expectedElideTail diff rest
    else ' ' :: (fvRender diff v ++ expectedElideTail diff rest)

/-- Expected zero-eliding render: a zero-valued verb disappears together
with its one leading separator space, so no double space remains. -/
def expectedElide (diff : Diff) : List FVerb → List Char
  | [] => []
  | v :: rest =>
    if fvCount diff v = 0 then expectedElideTail diff rest
    else fvRender diff v ++ expectedElideTail diff rest

/-- Intermediate fold state: verbs with `f v = true` have been substituted
(and elided when `elide` is set and the count is zero). -/
def mixedSeg (elide : Bool) (diff : Diff) (f : FVerb → Bool) (v : FVerb) :
    List Char :=
  if f v then
    (if elide ∧ fvCount diff v = 0 then [] else fvRender diff v)
  else fvChars v

def mixedTail (elide : Bool) (diff : Diff) (f : FVerb → Bool) :
    List FVerb → List Char
  | [] => []
  | v :: rest =>
    (if f v then
      (if elide ∧ fvCount diff v = 0 then [] else ' ' :: fvRender diff v)
     else ' ' :: fvChars v) ++ mixedTail elide diff f rest

def mixed (elide : Bool) (diff : Diff) (f : FVerb → Bool) :
    List FVerb → List Char
  | [] => []
  | v :: rest => mixedSeg elide diff f v ++ mixedTail elide diff f rest

/-- The eight verbs in the order of `formatUnits`. -/
def fvList : List FVerb := [.vY, .vy, .vM, .vm, .vW, .vw, .vD, .vd]

/-! ## Theorems -/

theorem isLeap_iff (y : Int) :
    isLeap y = true ↔ (y % 4 = 0 ∧ (y % 100 ≠ 0 ∨ y % 400 = 0)) := by
  simp [isLeap]

theorem yearStart_succ (y : Int) :
    yearStart (y + 1) = yearStart y + (if isLeap y then 366 else 365) := by
  have e1 : (y + 1 : Int) - 1 = y := by ring
  have s4 : y / 4 - (y - 1) / 4 = if y % 4 = 0 then 1 else 0 := by
    split_ifs with h <;> omega
  have s100 : y / 100 - (y - 1) / 100 = if y % 100 = 0 then 1 else 0 := by
    split_ifs with h <;> omega
  have s400 : y / 400 - (y - 1) / 400 = if y % 400 = 0 then 1 else 0 := by
    split_ifs with h <;> omega
  have imp100 : y % 100 = 0 → y % 4 = 0 := by omega
  have imp400 : y % 400 = 0 → y % 100 = 0 := by omega
  by_cases hl : isLeap y = true
  · have h := (isLeap_iff y).mp hl
    simp only [hl, if_true]
    unfold yearStart
    rw [e1]
    rcases h with ⟨h4, h100 | h400⟩
    · rw [if_pos h4] at s4
      rw [if_neg h100] at s100
      rw [if_neg (fun hh => h100 (imp400 hh))] at s400
      omega
    · rw [if_pos h4] at s4
      rw [if_pos (imp400 h400)] at s100
      rw [if_pos h400] at s400
      omega
  · have h : ¬ (y % 4 = 0 ∧ (y % 100 ≠ 0 ∨ y % 400 = 0)) := by
      rw [← isLeap_iff]; exact hl
    have h' : y % 4 ≠ 0 ∨ (y % 100 = 0 ∧ y % 400 ≠ 0) := by tauto
    simp only [hl, Bool.false_eq_true, if_false]
    unfold yearStart
    rw [e1]
    rcases h' with h' | ⟨ha, hb⟩
    · rw [if_neg h'] at s4
      rw [if_neg (fun hh => h' (imp100 hh))] at s100
      rw [if_neg (fun hh => h' (imp100 (imp400 hh)))] at s400
      omega
    · rw [if_pos (imp100 ha)] at s4
      rw [if_pos ha] at s100
      rw [if_neg hb] at s400
      omega

theorem yearStart_mono {a b : Int} (h : a ≤ b) : yearStart a ≤ yearStart b := by
  unfold yearStart; omega

theorem yearStart_add_le {a b : Int} (h : a < b) :
    yearStart a + 365 ≤ yearStart b := by
  unfold yearStart; omega

theorem yearOf_spec (n : Int) :
    yearStart (yearOf n) ≤ n ∧ n < yearStart (yearOf n + 1) := by
  have hlow : yearStart (400 * n / 146097) ≤ n := by unfold yearStart; omega
  have hhigh : n < yearStart (400 * n / 146097 + 3) := by unfold yearStart; omega
  unfold yearOf
  split_ifs with h1 h2
  · exact ⟨hlow, h1⟩
  · have e : (400 * n / 146097 : Int) + 1 + 1 = 400 * n / 146097 + 2 := by ring
    rw [e]
    exact ⟨not_lt.mp h1, h2⟩
  · have e : (400 * n / 146097 : Int) + 2 + 1 = 400 * n / 146097 + 3 := by ring
    rw [e]
    exact ⟨not_lt.mp h2, hhigh⟩

theorem yearOf_eq {y n : Int} (h1 : yearStart y ≤ n) (h2 : n < yearStart (y + 1)) :
    yearOf n = y := by
  rcases yearOf_spec n with ⟨s1, s2⟩
  by_contra hne
  rcases lt_or_gt_of_ne hne with hlt | hgt
  · have : yearOf n + 1 ≤ y := hlt
    have := yearStart_mono this
    omega
  · have : y + 1 ≤ yearOf n := hgt
    have := yearStart_mono this
    omega

theorem daysBeforeMonth_mono (leap : Bool) {a b : Int}
    (ha : 1 ≤ a) (hab : a ≤ b) (hb : b ≤ 13) :
    daysBeforeMonth leap a ≤ daysBeforeMonth leap b := by
  unfold daysBeforeMonth
  cases leap <;> split_ifs <;> omega

theorem monthFromDoy_spec (leap : Bool) {doy : Int} (h0 : 0 ≤ doy)
    (h1 : doy < if leap then 366 else 365) :
    1 ≤ monthFromDoy leap doy ∧ monthFromDoy leap doy ≤ 12 ∧
    daysBeforeMonth leap (monthFromDoy leap doy) ≤ doy ∧
    doy < daysBeforeMonth leap (monthFromDoy leap doy + 1) := by
  unfold monthFromDoy daysBeforeMonth
  cases leap
  · simp only [Bool.false_eq_true, if_false] at h1 ⊢
    split_ifs <;> omega
  · simp only [eq_self_iff_true, if_true] at h1 ⊢
    split_ifs <;> omega

theorem dbm_one (leap : Bool) : daysBeforeMonth leap 1 = 0 := by
  cases leap <;> decide

theorem dbm_12 (leap : Bool) :
    daysBeforeMonth leap 12 = if leap then 335 else 334 := by
  cases leap <;> decide

theorem dbm_13 (leap : Bool) :
    daysBeforeMonth leap 13 = if leap then 366 else 365 := by
  cases leap <;> decide

theorem dbm_step {leap : Bool} {m : Int} (h1 : 1 ≤ m) (h2 : m ≤ 12) :
    28 ≤ daysBeforeMonth leap (m + 1) - daysBeforeMonth leap m ∧
    daysBeforeMonth leap (m + 1) - daysBeforeMonth leap m ≤ 31 := by
  unfold daysBeforeMonth
  cases leap
  · simp only [Bool.false_eq_true, if_false]
    split_ifs <;> omega
  · simp only [eq_self_iff_true, if_true]
    split_ifs <;> omega

theorem monthOf_spec (n : Int) :
    1 ≤ monthOf n ∧ monthOf n ≤ 12 ∧
    daysBeforeMonth (isLeap (yearOf n)) (monthOf n) ≤ n - yearStart (yearOf n) ∧
    n - yearStart (yearOf n) < daysBeforeMonth (isLeap (yearOf n)) (monthOf n + 1) := by
  have hs := yearOf_spec n
  have hlen := yearStart_succ (yearOf n)
  have h0 : 0 ≤ n - yearStart (yearOf n) := by omega
  have h1 : n - yearStart (yearOf n) < if isLeap (yearOf n) then 366 else 365 := by
    split_ifs at hlen ⊢ <;> omega
  unfold monthOf
  exact monthFromDoy_spec _ h0 h1

theorem dayOf_spec (n : Int) :
    1 ≤ dayOf n ∧ dayOf n ≤ daysInMonth (yearOf n) (monthOf n) := by
  have h := monthOf_spec n
  unfold dayOf daysInMonth
  omega

theorem daysFromCivil_of (n : Int) :
    daysFromCivil (yearOf n) (monthOf n) (dayOf n) = n := by
  unfold daysFromCivil dayOf
  omega

theorem civil_daysFromCivil {y m d : Int} (hm1 : 1 ≤ m) (hm2 : m ≤ 12)
    (hd1 : 1 ≤ d) (hd2 : d ≤ daysInMonth y m) :
    yearOf (daysFromCivil y m d) = y ∧ monthOf (daysFromCivil y m d) = m ∧
    dayOf (daysFromCivil y m d) = d := by
  unfold daysInMonth at hd2
  have hmono1 : daysBeforeMonth (isLeap y) 1 ≤ daysBeforeMonth (isLeap y) m :=
    daysBeforeMonth_mono _ le_rfl hm1 (by omega)
  have hmono2 : daysBeforeMonth (isLeap y) (m + 1) ≤ daysBeforeMonth (isLeap y) 13 :=
    daysBeforeMonth_mono _ (by omega) (by omega) le_rfl
  have h1 := dbm_one (isLeap y)
  have h13 := dbm_13 (isLeap y)
  have hys := yearStart_succ y
  have hy : yearOf (daysFromCivil y m d) = y := by
    apply yearOf_eq
    · unfold daysFromCivil; omega
    · unfold daysFromCivil
      split_ifs at h13 hys <;> omega
  have hms := monthOf_spec (daysFromCivil y m d)
  rw [hy] at hms
  have hdoy : daysFromCivil y m d - yearStart y =
      daysBeforeMonth (isLeap y) m + (d - 1) := by
    unfold daysFromCivil; omega
  rw [hdoy] at hms
  have hmeq : monthOf (daysFromCivil y m d) = m := by
    rcases hms with ⟨q1, q2, q3, q4⟩
    by_contra hne
    rcases lt_or_gt_of_ne hne with hlt | hgt
    · have : daysBeforeMonth (isLeap y) (monthOf (daysFromCivil y m d) + 1) ≤
          daysBeforeMonth (isLeap y) m :=
        daysBeforeMonth_mono _ (by omega) (by omega) (by omega)
      omega
    · have : daysBeforeMonth (isLeap y) (m + 1) ≤
          daysBeforeMonth (isLeap y) (monthOf (daysFromCivil y m d)) :=
        daysBeforeMonth_mono _ (by omega) (by omega) (by omega)
      omega
  refine ⟨hy, hmeq, ?_⟩
  unfold dayOf
  rw [hy, hmeq, hdoy]
  omega

theorem daysFromCivil_monthStart (y m d : Int) (hm1 : 1 ≤ m) (hm2 : m ≤ 12) :
    daysFromCivil y m d = monthStart (12 * y + (m - 1)) + (d - 1) := by
  unfold daysFromCivil monthStart
  have h1 : (12 * y + (m - 1)) / 12 = y := by omega
  have h2 : (12 * y + (m - 1)) % 12 + 1 = m := by omega
  rw [h1, h2]

theorem monthStart_succ (k : Int) :
    monthStart k + 28 ≤ monthStart (k + 1) ∧ monthStart (k + 1) ≤ monthStart k + 31 := by
  by_cases h : k % 12 = 11
  · have h12 : (k + 1) / 12 = k / 12 + 1 := by omega
    have hm1 : (k + 1) % 12 + 1 = 1 := by omega
    have hm2 : k % 12 + 1 = 12 := by omega
    unfold monthStart
    rw [h12, hm1, hm2]
    have hys := yearStart_succ (k / 12)
    have d1 := dbm_one (isLeap (k / 12 + 1))
    have d12 := dbm_12 (isLeap (k / 12))
    rw [d1, d12]
    split_ifs at hys d12 ⊢ <;> omega
  · have h12 : (k + 1) / 12 = k / 12 := by omega
    have hm : (k + 1) % 12 + 1 = k % 12 + 1 + 1 := by omega
    unfold monthStart
    rw [h12, hm]
    have := @dbm_step (isLeap (k / 12)) (k % 12 + 1) (by omega) (by omega)
    omega

theorem monthStart_gap_nat (a : Int) (n : Nat) :
    monthStart a + 28 * n ≤ monthStart (a + n) ∧
    monthStart (a + n) ≤ monthStart a + 31 * n := by
  induction n with
  | zero => simp
  | succ k ih =>
    have hstep := monthStart_succ (a + k)
    have e : (a + ((k : Nat) + 1 : Nat) : Int) = a + (k : Int) + 1 := by push_cast; ring
    rw [e]
    push_cast
    push_cast at ih
    constructor <;> omega

theorem monthStart_gap {a b : Int} (h : a ≤ b) :
    monthStart a + 28 * (b - a) ≤ monthStart b ∧
    monthStart b ≤ monthStart a + 31 * (b - a) := by
  have hh := monthStart_gap_nat a (b - a).toNat
  have e : a + ((b - a).toNat : Int) = b := by omega
  rw [e] at hh
  have e2 : (((b - a).toNat : Int)) = b - a := by omega
  rw [e2] at hh
  exact hh

theorem monthStart_strictMono {a b : Int} (h : a < b) :
    monthStart a + 28 ≤ monthStart b := by
  have := monthStart_gap (le_of_lt h)
  omega

theorem monthStart_mono {a b : Int} (h : a ≤ b) : monthStart a ≤ monthStart b := by
  have := monthStart_gap h
  omega

theorem addDate_eq_monthStart (t y m d : Int) :
    addDate t y m d = monthStart (monthLin t + 12 * y + m) + (dayOf t + d - 1) := by
  unfold addDate monthStart monthLin daysFromCivil
  have e : 12 * (yearOf t + y) + (monthOf t - 1) + m =
      12 * yearOf t + (monthOf t - 1) + 12 * y + m := by ring
  rw [e]

theorem monthLin_decomp (t : Int) :
    monthLin t / 12 = yearOf t ∧ monthLin t % 12 + 1 = monthOf t := by
  have hm := monthOf_spec t
  unfold monthLin
  omega

theorem monthStart_monthLin (t : Int) :
    monthStart (monthLin t) + (dayOf t - 1) = t := by
  have hm := monthOf_spec t
  have h := daysFromCivil_monthStart (yearOf t) (monthOf t) (dayOf t) hm.1 hm.2.1
  have h2 := daysFromCivil_of t
  unfold monthLin
  omega

theorem addDate_days (t d : Int) : addDate t 0 0 d = t + d := by
  have h := addDate_eq_monthStart t 0 0 d
  have e : monthLin t + 12 * 0 + 0 = monthLin t := by ring
  rw [e] at h
  have h2 := monthStart_monthLin t
  omega

theorem addDate_self (t : Int) : addDate t 0 0 0 = t := by
  have := addDate_days t 0
  omega

theorem addDate_year_month (t y m d : Int) :
    addDate t y m d = addDate t 0 (12 * y + m) d := by
  rw [addDate_eq_monthStart, addDate_eq_monthStart]
  have e : monthLin t + 12 * y + m = monthLin t + 12 * 0 + (12 * y + m) := by ring
  rw [e]

theorem monthStart_succ_dim (L : Int) :
    monthStart (L + 1) - monthStart L = daysInMonth (L / 12) (L % 12 + 1) := by
  by_cases h : L % 12 = 11
  · have h12 : (L + 1) / 12 = L / 12 + 1 := by omega
    have hm1 : (L + 1) % 12 + 1 = 1 := by omega
    have hm2 : L % 12 + 1 = 12 := by omega
    unfold monthStart daysInMonth
    rw [h12, hm1, hm2]
    have hys := yearStart_succ (L / 12)
    have d1 := dbm_one (isLeap (L / 12 + 1))
    have d12 := dbm_12 (isLeap (L / 12))
    have d13 := dbm_13 (isLeap (L / 12))
    rw [d1]
    have e : (12 : Int) + 1 = 13 := by norm_num
    rw [e, d13, d12]
    split_ifs at hys ⊢ <;> omega
  · have h12 : (L + 1) / 12 = L / 12 := by omega
    have hm : (L + 1) % 12 + 1 = L % 12 + 1 + 1 := by omega
    unfold monthStart daysInMonth
    rw [h12, hm]
    omega

theorem dayOf_le_dim (t : Int) :
    dayOf t ≤ monthStart (monthLin t + 1) - monthStart (monthLin t) := by
  have h := dayOf_spec t
  have hd := monthStart_succ_dim (monthLin t)
  have hl := monthLin_decomp t
  rw [hl.1, hl.2] at hd
  omega

theorem civil_monthStart_add {L dd : Int} (h1 : 1 ≤ dd)
    (h2 : dd ≤ monthStart (L + 1) - monthStart L) :
    yearOf (monthStart L + (dd - 1)) = L / 12 ∧
    monthOf (monthStart L + (dd - 1)) = L % 12 + 1 ∧
    dayOf (monthStart L + (dd - 1)) = dd := by
  have hL1 : 1 ≤ L % 12 + 1 := by omega
  have hL2 : L % 12 + 1 ≤ 12 := by omega
  have hdim := monthStart_succ_dim L
  have h := civil_daysFromCivil (y := L / 12) (m := L % 12 + 1) (d := dd) hL1 hL2 h1
    (by omega)
  rw [daysFromCivil_monthStart _ _ _ hL1 hL2] at h
  have e : 12 * (L / 12) + (L % 12 + 1 - 1) = L := by omega
  rw [e] at h
  exact h

theorem monthLin_monthStart_add {L dd : Int} (h1 : 1 ≤ dd)
    (h2 : dd ≤ monthStart (L + 1) - monthStart L) :
    monthLin (monthStart L + (dd - 1)) = L := by
  have h := civil_monthStart_add h1 h2
  unfold monthLin
  rw [h.1, h.2.1]
  omega

theorem addDate_years_mono (s : Int) {a b : Int} (h : a ≤ b) :
    addDate s a 0 0 ≤ addDate s b 0 0 := by
  rw [addDate_eq_monthStart, addDate_eq_monthStart]
  have := monthStart_mono (a := monthLin s + 12 * a + 0) (b := monthLin s + 12 * b + 0)
    (by omega)
  omega

theorem addDate_years_strictMono (s : Int) {a b : Int} (h : a < b) :
    addDate s a 0 0 + 28 ≤ addDate s b 0 0 := by
  rw [addDate_eq_monthStart, addDate_eq_monthStart]
  have := monthStart_gap (a := monthLin s + 12 * a + 0) (b := monthLin s + 12 * b + 0)
    (by omega)
  omega

theorem addDate_months_mono (s : Int) {a b : Int} (h : a ≤ b) :
    addDate s 0 a 0 ≤ addDate s 0 b 0 := by
  rw [addDate_eq_monthStart, addDate_eq_monthStart]
  have := monthStart_mono (a := monthLin s + 12 * 0 + a) (b := monthLin s + 12 * 0 + b)
    (by omega)
  omega

theorem addDate_months_strictMono (s : Int) {a b : Int} (h : a < b) :
    addDate s 0 a 0 + 28 ≤ addDate s 0 b 0 := by
  rw [addDate_eq_monthStart, addDate_eq_monthStart]
  have := monthStart_gap (a := monthLin s + 12 * 0 + a) (b := monthLin s + 12 * 0 + b)
    (by omega)
  omega

theorem addDate_months_lb (s : Int) {k : Int} (h : 0 ≤ k) :
    s + 28 * k ≤ addDate s 0 k 0 := by
  rw [addDate_eq_monthStart]
  have hgap := monthStart_gap (a := monthLin s) (b := monthLin s + 12 * 0 + k) (by omega)
  have hml := monthStart_monthLin s
  omega

theorem dayOf_le_31 (t : Int) : dayOf t ≤ 31 := by
  have h := dayOf_spec t
  have hm := monthOf_spec t
  have := @dbm_step (isLeap (yearOf t)) (monthOf t) hm.1 hm.2.1
  unfold daysInMonth at h
  omega

theorem addDate_years_lb (s k : Int) : yearStart (yearOf s + k) ≤ addDate s k 0 0 := by
  rw [addDate_eq_monthStart]
  have hm := monthOf_spec s
  have hd := dayOf_spec s
  have hL1 : (monthLin s + 12 * k + 0) / 12 = yearOf s + k := by unfold monthLin; omega
  have hL2 : (monthLin s + 12 * k + 0) % 12 + 1 = monthOf s := by unfold monthLin; omega
  unfold monthStart
  rw [hL1, hL2]
  have h0 := dbm_one (isLeap (yearOf s + k))
  have hmono : daysBeforeMonth (isLeap (yearOf s + k)) 1 ≤
      daysBeforeMonth (isLeap (yearOf s + k)) (monthOf s) :=
    daysBeforeMonth_mono _ le_rfl hm.1 (by omega)
  omega

theorem addDate_years_ub (s k : Int) : addDate s k 0 0 < yearStart (yearOf s + k + 1) := by
  rw [addDate_eq_monthStart]
  have hm := monthOf_spec s
  have hd31 := dayOf_le_31 s
  have hd := dayOf_spec s
  have hL1 : (monthLin s + 12 * k + 0) / 12 = yearOf s + k := by unfold monthLin; omega
  have hL2 : (monthLin s + 12 * k + 0) % 12 + 1 = monthOf s := by unfold monthLin; omega
  unfold monthStart
  rw [hL1, hL2]
  have h12 := dbm_12 (isLeap (yearOf s + k))
  have hmono : daysBeforeMonth (isLeap (yearOf s + k)) (monthOf s) ≤
      daysBeforeMonth (isLeap (yearOf s + k)) 12 :=
    daysBeforeMonth_mono _ hm.1 hm.2.1 (by omega)
  have hys := yearStart_succ (yearOf s + k)
  split_ifs at h12 hys <;> omega

/-! ## Characterisations of the decomposition pieces -/

theorem fullYearsDiff_sandwich (s e : Int) :
    addDate s (fullYearsDiff s e) 0 0 ≤ e ∧
    e < addDate s (fullYearsDiff s e + 1) 0 0 := by
  have hys := yearOf_spec e
  unfold fullYearsDiff
  split_ifs with h
  · constructor
    · have h1 := addDate_years_ub s (yearOf e - yearOf s - 1)
      have e1 : yearOf s + (yearOf e - yearOf s - 1) + 1 = yearOf e := by ring
      rw [e1] at h1
      omega
    · have e1 : yearOf e - yearOf s - 1 + 1 = yearOf e - yearOf s := by ring
      rw [e1]
      omega
  · refine ⟨not_lt.mp h, ?_⟩
    have h1 := addDate_years_lb s (yearOf e - yearOf s + 1)
    have e1 : yearOf s + (yearOf e - yearOf s + 1) = yearOf e + 1 := by ring
    rw [e1] at h1
    omega

theorem fullYearsDiff_eq {s e N : Int} (h1 : addDate s N 0 0 ≤ e)
    (h2 : e < addDate s (N + 1) 0 0) : fullYearsDiff s e = N := by
  have hs := fullYearsDiff_sandwich s e
  by_contra hne
  rcases lt_or_gt_of_ne hne with hlt | hgt
  · have hle := addDate_years_mono s (show fullYearsDiff s e + 1 ≤ N by omega)
    omega
  · have hle := addDate_years_mono s (show N + 1 ≤ fullYearsDiff s e by omega)
    omega

theorem fullYearsDiff_nonneg {s e : Int} (h : s ≤ e) : 0 ≤ fullYearsDiff s e := by
  have hs := fullYearsDiff_sandwich s e
  by_contra hneg
  have hle := addDate_years_mono s (show fullYearsDiff s e + 1 ≤ 0 by omega)
  rw [addDate_self] at hle
  omega

theorem fullMonthsDiffAux_spec (s e : Int) (fuel : Nat) :
    ∀ m : Int, ¬ addDate s 0 (m + fuel + 1) 0 ≤ e →
    ¬ addDate s 0 (fullMonthsDiffAux s e fuel m + 1) 0 ≤ e ∧
    m ≤ fullMonthsDiffAux s e fuel m ∧
    ∀ k, m ≤ k → k < fullMonthsDiffAux s e fuel m → addDate s 0 (k + 1) 0 ≤ e := by
  induction fuel with
  | zero =>
    intro m hstop
    simp only [fullMonthsDiffAux]
    have e1 : m + ((0 : Nat) : Int) + 1 = m + 1 := by push_cast; ring
    rw [e1] at hstop
    exact ⟨hstop, le_rfl, by intro k hk1 hk2; omega⟩
  | succ f ih =>
    intro m hstop
    have e1 : m + ((f + 1 : Nat) : Int) + 1 = m + 1 + (f : Int) + 1 := by push_cast; ring
    rw [e1] at hstop
    simp only [fullMonthsDiffAux]
    by_cases hc : addDate s 0 (m + 1) 0 ≤ e
    · rw [if_pos hc]
      have h := ih (m + 1) hstop
      refine ⟨h.1, by omega, ?_⟩
      intro k hk1 hk2
      rcases eq_or_lt_of_le hk1 with heq | hlt
      · rw [heq] at hc; exact hc
      · exact h.2.2 k (by omega) hk2
    · rw [if_neg hc]
      exact ⟨hc, le_rfl, by intro k hk1 hk2; omega⟩

theorem fullMonthsDiff_spec {s e : Int} (hse : s ≤ e) :
    ¬ addDate s 0 (fullMonthsDiff s e + 1) 0 ≤ e ∧ 0 ≤ fullMonthsDiff s e ∧
    ∀ k, 0 ≤ k → k < fullMonthsDiff s e → addDate s 0 (k + 1) 0 ≤ e := by
  unfold fullMonthsDiff
  apply fullMonthsDiffAux_spec
  have e1 : (0 : Int) + (((e - s).toNat + 1 : Nat) : Int) + 1 = (e - s) + 2 := by
    push_cast; omega
  rw [e1]
  have := addDate_months_lb s (k := e - s + 2) (by omega)
  omega

theorem fullMonthsDiff_eqN {s e N : Int} (hse : s ≤ e) (h0 : 0 ≤ N)
    (hN : addDate s 0 N 0 ≤ e) (hN1 : ¬ addDate s 0 (N + 1) 0 ≤ e) :
    fullMonthsDiff s e = N := by
  have hs := fullMonthsDiff_spec hse
  by_contra hne
  rcases lt_or_gt_of_ne hne with hlt | hgt
  · have hcond : addDate s 0 (fullMonthsDiff s e + 1) 0 ≤ e := by
      calc addDate s 0 (fullMonthsDiff s e + 1) 0 ≤ addDate s 0 N 0 :=
        addDate_months_mono s (by omega)
      _ ≤ e := hN
    exact hs.1 hcond
  · exact hN1 (hs.2.2 N h0 hgt)

theorem fullWeeksDiffAux_eq (s e : Int) (fuel : Nat) :
    ∀ w days : Int, days = 7 * (w + 1) → 0 ≤ w → 7 * w ≤ e - s →
    e - s < 7 * (w + fuel + 1) →
    fullWeeksDiffAux s e fuel w days = (e - s) / 7 := by
  induction fuel with
  | zero =>
    intro w days hdays hw hlow hfuel
    simp only [fullWeeksDiffAux]
    push_cast at hfuel
    omega
  | succ f ih =>
    intro w days hdays hw hlow hfuel
    push_cast at hfuel
    simp only [fullWeeksDiffAux, addDate_days]
    by_cases hc : s + days ≤ e
    · rw [if_pos hc]
      apply ih (w + 1) (days + 7) (by omega) (by omega) (by omega)
      omega
    · rw [if_neg hc]
      omega

theorem fullWeeksDiff_eq {s e : Int} (hse : s ≤ e) :
    fullWeeksDiff s e = (e - s) / 7 := by
  unfold fullWeeksDiff
  apply fullWeeksDiffAux_eq s e _ 0 7 (by ring) le_rfl (by omega)
  omega

theorem fullDaysDiffAux_eq (s e : Int) (fuel : Nat) :
    ∀ d : Int, 0 ≤ d → d ≤ e - s → e - s < d + fuel + 1 →
    fullDaysDiffAux s e fuel d = e - s := by
  induction fuel with
  | zero =>
    intro d hd hlow hfuel
    simp only [fullDaysDiffAux]
    push_cast at hfuel
    omega
  | succ f ih =>
    intro d hd hlow hfuel
    push_cast at hfuel
    simp only [fullDaysDiffAux, addDate_days]
    by_cases hc : s + (d + 1) ≤ e
    · rw [if_pos hc]
      apply ih (d + 1) (by omega) (by omega)
      omega
    · rw [if_neg hc]
      omega

theorem fullDaysDiff_eq {s e : Int} (hse : s ≤ e) : fullDaysDiff s e = e - s := by
  unfold fullDaysDiff
  apply fullDaysDiffAux_eq s e _ 0 le_rfl (by omega)
  omega

theorem newDiff_eq (s e : Int) (mode : Nat) :
    newDiff s e mode =
      { Years := dYears s e mode, Months := dMonths s e mode,
        Weeks := dWeeks s e mode, Days := dDays s e mode,
        rawFormat := [], mode := mode } := rfl

theorem dimLin_ge (L : Int) : 28 ≤ dimLin L := by
  have := monthStart_succ L
  unfold dimLin
  omega

theorem dimLin_le (L : Int) : dimLin L ≤ 31 := by
  have := monthStart_succ L
  unfold dimLin
  omega

theorem dayOf_le_dimLin (t : Int) : dayOf t ≤ dimLin (monthLin t) := by
  have := dayOf_le_dim t
  unfold dimLin
  omega

theorem dim_formula (leap : Bool) {m : Int} (h1 : 1 ≤ m) (h2 : m ≤ 12) :
    daysBeforeMonth leap (m + 1) - daysBeforeMonth leap m =
    (367 * (m + 1) - 362) / 12 - (367 * m - 362) / 12 -
      (if m = 2 then (if leap then 1 else 2) else 0) := by
  unfold daysBeforeMonth
  cases leap
  · simp only [Bool.false_eq_true, if_false]
    split_ifs <;> omega
  · simp only [eq_self_iff_true, if_true]
    split_ifs <;> omega

theorem daysInMonth_cases (y y' : Int) {m : Int} (h1 : 1 ≤ m) (h2 : m ≤ 12) :
    daysInMonth y m = daysInMonth y' m ∨
    (28 ≤ daysInMonth y m ∧ daysInMonth y m ≤ 29 ∧
     28 ≤ daysInMonth y' m ∧ daysInMonth y' m ≤ 29) := by
  unfold daysInMonth
  rw [dim_formula (isLeap y) h1 h2, dim_formula (isLeap y') h1 h2]
  by_cases hm : m = 2
  · subst hm
    cases isLeap y <;> cases isLeap y' <;>
      simp only [Bool.false_eq_true, if_false, eq_self_iff_true, if_true] <;> omega
  · rw [if_neg hm, if_neg hm]
    omega

theorem dimLin_mod_eq {L L' : Int} (h : L % 12 = L' % 12) :
    dimLin L = dimLin L' ∨
    (28 ≤ dimLin L ∧ dimLin L ≤ 29 ∧ 28 ≤ dimLin L' ∧ dimLin L' ≤ 29) := by
  have h1 := monthStart_succ_dim L
  have h2 := monthStart_succ_dim L'
  unfold dimLin
  rw [h1, h2, h]
  exact daysInMonth_cases (L / 12) (L' / 12) (by omega) (by omega)

theorem addDate_years_monthStart (s Y : Int) :
    addDate s Y 0 0 = monthStart (monthLin s + 12 * Y) + (dayOf s - 1) := by
  rw [addDate_eq_monthStart]
  have e1 : monthLin s + 12 * Y + 0 = monthLin s + 12 * Y := by ring
  rw [e1]
  omega

/-- Civil decomposition of the year-advanced cursor `start.AddDate(Y, 0, 0)`:
either the day is valid in the target month (no overflow) or it overflows by
at most three days into the next month, which happens only when the target
month is a 28-day February. -/
theorem addDate_years_civil (s Y : Int) :
    (dayOf s ≤ dimLin (monthLin s + 12 * Y) ∧
     monthLin (addDate s Y 0 0) = monthLin s + 12 * Y ∧
     dayOf (addDate s Y 0 0) = dayOf s) ∨
    (dimLin (monthLin s + 12 * Y) < dayOf s ∧
     monthLin (addDate s Y 0 0) = monthLin s + 12 * Y + 1 ∧
     dayOf (addDate s Y 0 0) = dayOf s - 28 ∧
     dimLin (monthLin s + 12 * Y) = 28) := by
  have hd := dayOf_spec s
  have hc := addDate_years_monthStart s Y
  by_cases hov : dayOf s ≤ dimLin (monthLin s + 12 * Y)
  · left
    have h := @monthLin_monthStart_add (monthLin s + 12 * Y) (dayOf s)
      (by omega) (by unfold dimLin at hov; omega)
    have h2 := @civil_monthStart_add (monthLin s + 12 * Y) (dayOf s)
      (by omega) (by unfold dimLin at hov; omega)
    rw [hc]
    exact ⟨hov, h, h2.2.2⟩
  · right
    push_neg at hov
    have hds := dayOf_le_dimLin s
    have hmod : (monthLin s + 12 * Y) % 12 = monthLin s % 12 := by omega
    have hdim : dimLin (monthLin s + 12 * Y) = 28 := by
      rcases dimLin_mod_eq hmod with heq | hrange
      · omega
      · omega
    have hd31 := dayOf_le_31 s
    have hge := dimLin_ge (monthLin s + 12 * Y + 1)
    have hstep : monthStart (monthLin s + 12 * Y + 1) =
        monthStart (monthLin s + 12 * Y) + 28 := by
      unfold dimLin at hdim
      omega
    have hc2 : addDate s Y 0 0 =
        monthStart (monthLin s + 12 * Y + 1) + (dayOf s - 28 - 1) := by
      rw [hc, hstep]; ring
    have h := @monthLin_monthStart_add (monthLin s + 12 * Y + 1)
      (dayOf s - 28) (by omega) (by unfold dimLin at hge; omega)
    have h2 := @civil_monthStart_add (monthLin s + 12 * Y + 1)
      (dayOf s - 28) (by omega) (by unfold dimLin at hge; omega)
    rw [hc2]
    exact ⟨hov, h, h2.2.2, hdim⟩

/-- Adding `j` more months to the year-advanced cursor lands at or after
adding `12 Y + j` months to `start` directly. -/
theorem addDate_cursor_ge (s Y j : Int) :
    addDate s 0 (12 * Y + j) 0 ≤ addDate (addDate s Y 0 0) 0 j 0 := by
  have hL := addDate_eq_monthStart (addDate s Y 0 0) 0 j 0
  have hR := addDate_eq_monthStart s 0 (12 * Y + j) 0
  rcases addDate_years_civil s Y with ⟨hov, hml, hd⟩ | ⟨hov, hml, hd, hdim⟩
  · rw [hL, hR, hml, hd]
    have e1 : monthLin s + 12 * Y + 12 * 0 + j = monthLin s + 12 * 0 + (12 * Y + j) := by
      ring
    rw [e1]
  · rw [hL, hR, hml, hd]
    have e1 : monthLin s + 12 * Y + 1 + 12 * 0 + j = monthLin s + 12 * Y + j + 1 := by
      ring
    have e2 : monthLin s + 12 * 0 + (12 * Y + j) = monthLin s + 12 * Y + j := by ring
    rw [e1, e2]
    have hs := monthStart_succ (monthLin s + 12 * Y + j)
    omega

/-- Without overflow the cursor path agrees with direct month addition. -/
theorem addDate_cursor_eq (s Y j : Int)
    (hov : dayOf s ≤ dimLin (monthLin s + 12 * Y)) :
    addDate (addDate s Y 0 0) 0 j 0 = addDate s 0 (12 * Y + j) 0 := by
  have hL := addDate_eq_monthStart (addDate s Y 0 0) 0 j 0
  have hR := addDate_eq_monthStart s 0 (12 * Y + j) 0
  rcases addDate_years_civil s Y with ⟨_, hml, hd⟩ | ⟨hbad, _, _, _⟩
  · rw [hL, hR, hml, hd]
    have e1 : monthLin s + 12 * Y + 12 * 0 + j = monthLin s + 12 * 0 + (12 * Y + j) := by
      ring
    rw [e1]
  · omega

theorem fullMonthsDiff_self (e : Int) : fullMonthsDiff e e = 0 := by
  apply fullMonthsDiff_eqN le_rfl le_rfl
  · rw [addDate_self]
  · have h := addDate_months_strictMono e (a := 0) (b := 0 + 1) (by omega)
    rw [addDate_self] at h
    omega

theorem fullWeeksDiff_self (e : Int) : fullWeeksDiff e e = 0 := by
  rw [fullWeeksDiff_eq le_rfl]
  omega

theorem fullDaysDiff_self (e : Int) : fullDaysDiff e e = 0 := by
  rw [fullDaysDiff_eq le_rfl]
  omega

/-- The month count from the year-advanced cursor never reaches 12. -/
theorem fullMonthsDiff_cursor_le_11 (s e : Int) :
    fullMonthsDiff (addDate s (fullYearsDiff s e) 0 0) e ≤ 11 := by
  have hsand := fullYearsDiff_sandwich s e
  have hcle : addDate s (fullYearsDiff s e) 0 0 ≤ e := hsand.1
  have hspec := fullMonthsDiff_spec hcle
  by_contra hgt
  push_neg at hgt
  have hcond := hspec.2.2 11 (by omega) (by omega)
  have hge := addDate_cursor_ge s (fullYearsDiff s e) 12
  have hym := addDate_year_month s (fullYearsDiff s e + 1) 0 0
  have e1 : 12 * (fullYearsDiff s e + 1) + 0 = 12 * fullYearsDiff s e + 12 := by ring
  rw [e1] at hym
  have e2 : (11 : Int) + 1 = 12 := by norm_num
  rw [e2] at hcond
  omega

theorem fullYearsDiff_self (d : Int) : fullYearsDiff d d = 0 := by
  apply fullYearsDiff_eq
  · rw [addDate_self]
  · have h := addDate_years_strictMono d (a := 0) (b := 0 + 1) (by omega)
    rw [addDate_self] at h
    omega

theorem newDiff_self (d : Int) (mode : Nat) :
    newDiff d d mode = ⟨0, 0, 0, 0, [], mode⟩ := by
  rw [newDiff_eq]
  have hY : dYears d d mode = 0 := by
    unfold dYears
    split_ifs with h
    · exact fullYearsDiff_self d
    · rfl
  have hC1 : dCursor1 d d mode = d := by
    unfold dCursor1
    split_ifs with h
    · rw [hY, addDate_self]
    · rfl
  have hIY : dIYears d d mode = 0 := by
    unfold dIYears
    split_ifs with h1 h2
    · rw [hC1]; exact fullYearsDiff_self d
    · rfl
    · rfl
  have hM : dMonths d d mode = 0 := by
    unfold dMonths
    split_ifs with h
    · rw [hIY, hC1, addDate_self, fullMonthsDiff_self]; ring
    · rfl
  have hC2 : dCursor2 d d mode = d := by
    unfold dCursor2
    split_ifs with h
    · rw [hC1, hM, addDate_self]
    · exact hC1
  have hW : dWeeks d d mode = 0 := by
    unfold dWeeks
    split_ifs with h
    · rw [hC2]; exact fullWeeksDiff_self d
    · rfl
  have hC3 : dCursor3 d d mode = d := by
    unfold dCursor3
    split_ifs with h
    · rw [hC2, hW]
      have e1 : (0 : Int) * 7 = 0 := by ring
      rw [e1, addDate_self]
    · exact hC2
  have hD : dDays d d mode = 0 := by
    unfold dDays
    split_ifs with h
    · rw [hC3]; exact fullDaysDiff_self d
    · rfl
  rw [hY, hM, hW, hD]

/-- Exactness of the decomposition when `end` is `start` advanced by whole
years: the Years count is exactly `N` (boundary counts, `<=` not `<`) and
every other count is zero. -/
theorem newDiff_years_exact (s N : Int) (mode : Nat)
    (hbit : mode &&& ModeYears ≠ 0) :
    newDiff s (addDate s N 0 0) mode = ⟨N, 0, 0, 0, [], mode⟩ := by
  have he : fullYearsDiff s (addDate s N 0 0) = N := by
    apply fullYearsDiff_eq le_rfl
    have h := addDate_years_strictMono s (a := N) (b := N + 1) (by omega)
    omega
  rw [newDiff_eq]
  have hY : dYears s (addDate s N 0 0) mode = N := by
    unfold dYears; rw [if_pos hbit, he]
  have hC1 : dCursor1 s (addDate s N 0 0) mode = addDate s N 0 0 := by
    unfold dCursor1; rw [if_pos hbit, hY]
  have hIY : dIYears s (addDate s N 0 0) mode = 0 := by
    unfold dIYears
    rw [if_neg (fun hh : mode &&& ModeYears = 0 => hbit hh), ite_self]
  have hM : dMonths s (addDate s N 0 0) mode = 0 := by
    unfold dMonths
    split_ifs with h
    · rw [hIY, hC1, addDate_self, fullMonthsDiff_self]; ring
    · rfl
  have hC2 : dCursor2 s (addDate s N 0 0) mode = addDate s N 0 0 := by
    unfold dCursor2
    split_ifs with h
    · rw [hC1, hM, addDate_self]
    · exact hC1
  have hW : dWeeks s (addDate s N 0 0) mode = 0 := by
    unfold dWeeks
    split_ifs with h
    · rw [hC2]; exact fullWeeksDiff_self _
    · rfl
  have hC3 : dCursor3 s (addDate s N 0 0) mode = addDate s N 0 0 := by
    unfold dCursor3
    split_ifs with h
    · rw [hC2, hW]
      have e1 : (0 : Int) * 7 = 0 := by ring
      rw [e1, addDate_self]
    · exact hC2
  have hD : dDays s (addDate s N 0 0) mode = 0 := by
    unfold dDays
    split_ifs with h
    · rw [hC3]; exact fullDaysDiff_self _
    · rfl
  rw [hY, hM, hW, hD]

/-- Exactness of the decomposition when `end` is `start` advanced by whole
months and Months is the coarsest selected unit, provided the internal
year-advanced cursor does not overflow (no Feb 29 anomaly). -/
theorem newDiff_months_exact (s N : Int) (_hN : 0 ≤ N) (mode : Nat)
    (hbit : mode &&& ModeMonths ≠ 0) (hnoY : mode &&& ModeYears = 0)
    (hov : dayOf s ≤ dimLin (monthLin s + 12 * (N / 12))) :
    newDiff s (addDate s 0 N 0) mode = ⟨0, N, 0, 0, [], mode⟩ := by
  have hYe : fullYearsDiff s (addDate s 0 N 0) = N / 12 := by
    apply fullYearsDiff_eq
    · rw [addDate_year_month s (N / 12) 0 0]
      have e1 : 12 * (N / 12) + 0 = 12 * (N / 12) := by ring
      rw [e1]
      exact addDate_months_mono s (by omega)
    · rw [addDate_year_month s (N / 12 + 1) 0 0]
      have h := addDate_months_strictMono s (a := N) (b := 12 * (N / 12 + 1) + 0)
        (by omega)
      omega
  have hj : fullMonthsDiff (addDate s (N / 12) 0 0) (addDate s 0 N 0) = N % 12 := by
    apply fullMonthsDiff_eqN
    · rw [addDate_year_month s (N / 12) 0 0]
      have e1 : 12 * (N / 12) + 0 = 12 * (N / 12) := by ring
      rw [e1]
      exact addDate_months_mono s (by omega)
    · omega
    · rw [addDate_cursor_eq s (N / 12) (N % 12) hov]
      have e1 : 12 * (N / 12) + N % 12 = N := by omega
      rw [e1]
    · rw [addDate_cursor_eq s (N / 12) (N % 12 + 1) hov]
      have h := addDate_months_strictMono s (a := N) (b := 12 * (N / 12) + (N % 12 + 1))
        (by omega)
      omega
  rw [newDiff_eq]
  have hbitne : ¬ mode &&& ModeYears ≠ 0 := fun hh => hh hnoY
  have hY : dYears s (addDate s 0 N 0) mode = 0 := by
    unfold dYears; rw [if_neg hbitne]
  have hC1 : dCursor1 s (addDate s 0 N 0) mode = s := by
    unfold dCursor1; rw [if_neg hbitne]
  have hIY : dIYears s (addDate s 0 N 0) mode = N / 12 := by
    unfold dIYears
    rw [if_pos hbit, if_pos hnoY, hC1, hYe]
  have hM : dMonths s (addDate s 0 N 0) mode = N := by
    unfold dMonths
    rw [if_pos hbit, hIY, hC1, hj]
    omega
  have hC2 : dCursor2 s (addDate s 0 N 0) mode = addDate s 0 N 0 := by
    unfold dCursor2
    rw [if_pos hbit, hC1, hM]
  have hW : dWeeks s (addDate s 0 N 0) mode = 0 := by
    unfold dWeeks
    split_ifs with h
    · rw [hC2]; exact fullWeeksDiff_self _
    · rfl
  have hC3 : dCursor3 s (addDate s 0 N 0) mode = addDate s 0 N 0 := by
    unfold dCursor3
    split_ifs with h
    · rw [hC2, hW]
      have e1 : (0 : Int) * 7 = 0 := by ring
      rw [e1, addDate_self]
    · exact hC2
  have hD : dDays s (addDate s 0 N 0) mode = 0 := by
    unfold dDays
    split_ifs with h
    · rw [hC3]; exact fullDaysDiff_self _
    · rfl
  rw [hY, hM, hW, hD]

/-- Exactness for whole weeks when Weeks is the coarsest selected unit. -/
theorem newDiff_weeks_exact (s N : Int) (hN : 0 ≤ N) (mode : Nat)
    (hbit : mode &&& ModeWeeks ≠ 0) (hnoY : mode &&& ModeYears = 0)
    (hnoM : mode &&& ModeMonths = 0) :
    newDiff s (addDate s 0 0 (7 * N)) mode = ⟨0, 0, N, 0, [], mode⟩ := by
  rw [addDate_days, newDiff_eq]
  have hbitY : ¬ mode &&& ModeYears ≠ 0 := fun hh => hh hnoY
  have hbitM : ¬ mode &&& ModeMonths ≠ 0 := fun hh => hh hnoM
  have hY : dYears s (s + 7 * N) mode = 0 := by unfold dYears; rw [if_neg hbitY]
  have hC1 : dCursor1 s (s + 7 * N) mode = s := by unfold dCursor1; rw [if_neg hbitY]
  have hM : dMonths s (s + 7 * N) mode = 0 := by unfold dMonths; rw [if_neg hbitM]
  have hC2 : dCursor2 s (s + 7 * N) mode = s := by
    unfold dCursor2; rw [if_neg hbitM]; exact hC1
  have hW : dWeeks s (s + 7 * N) mode = N := by
    unfold dWeeks
    rw [if_pos hbit, hC2, fullWeeksDiff_eq (by omega)]
    omega
  have hC3 : dCursor3 s (s + 7 * N) mode = s + 7 * N := by
    unfold dCursor3
    rw [if_pos hbit, hC2, hW, addDate_days]
    ring
  have hD : dDays s (s + 7 * N) mode = 0 := by
    unfold dDays
    split_ifs with h
    · rw [hC3]; exact fullDaysDiff_self _
    · rfl
  rw [hY, hM, hW, hD]

/-- Exactness for whole days when Days is the coarsest selected unit. -/
theorem newDiff_days_exact (s N : Int) (hN : 0 ≤ N) (mode : Nat)
    (hbit : mode &&& ModeDays ≠ 0) (hnoY : mode &&& ModeYears = 0)
    (hnoM : mode &&& ModeMonths = 0) (hnoW : mode &&& ModeWeeks = 0) :
    newDiff s (addDate s 0 0 N) mode = ⟨0, 0, 0, N, [], mode⟩ := by
  rw [addDate_days, newDiff_eq]
  have hbitY : ¬ mode &&& ModeYears ≠ 0 := fun hh => hh hnoY
  have hbitM : ¬ mode &&& ModeMonths ≠ 0 := fun hh => hh hnoM
  have hbitW : ¬ mode &&& ModeWeeks ≠ 0 := fun hh => hh hnoW
  have hY : dYears s (s + N) mode = 0 := by unfold dYears; rw [if_neg hbitY]
  have hC1 : dCursor1 s (s + N) mode = s := by unfold dCursor1; rw [if_neg hbitY]
  have hM : dMonths s (s + N) mode = 0 := by unfold dMonths; rw [if_neg hbitM]
  have hC2 : dCursor2 s (s + N) mode = s := by
    unfold dCursor2; rw [if_neg hbitM]; exact hC1
  have hW : dWeeks s (s + N) mode = 0 := by unfold dWeeks; rw [if_neg hbitW]
  have hC3 : dCursor3 s (s + N) mode = s := by
    unfold dCursor3; rw [if_neg hbitW]; exact hC2
  have hD : dDays s (s + N) mode = N := by
    unfold dDays
    rw [if_pos hbit, hC3, fullDaysDiff_eq (by omega)]
    ring
  rw [hY, hM, hW, hD]

theorem newDiff_Years (s e : Int) (mode : Nat) :
    (newDiff s e mode).Years = dYears s e mode := rfl

theorem newDiff_Months (s e : Int) (mode : Nat) :
    (newDiff s e mode).Months = dMonths s e mode := rfl

theorem newDiff_Weeks (s e : Int) (mode : Nat) :
    (newDiff s e mode).Weeks = dWeeks s e mode := rfl

theorem newDiff_Days (s e : Int) (mode : Nat) :
    (newDiff s e mode).Days = dDays s e mode := rfl

theorem fullYearsDiff_mono (s : Int) {e1 e2 : Int} (h : e1 ≤ e2) :
    fullYearsDiff s e1 ≤ fullYearsDiff s e2 := by
  have h1 := fullYearsDiff_sandwich s e1
  have h2 := fullYearsDiff_sandwich s e2
  by_contra hgt
  push_neg at hgt
  have hmono := addDate_years_mono s
    (show fullYearsDiff s e2 + 1 ≤ fullYearsDiff s e1 by omega)
  omega

theorem fullMonthsDiff_mono (c : Int) {e1 e2 : Int} (hc : c ≤ e1) (h : e1 ≤ e2) :
    fullMonthsDiff c e1 ≤ fullMonthsDiff c e2 := by
  have s1 := fullMonthsDiff_spec hc
  have s2 := fullMonthsDiff_spec (le_trans hc h)
  by_contra hgt
  push_neg at hgt
  have hcond := s1.2.2 (fullMonthsDiff c e2) s2.2.1 hgt
  exact s2.1 (le_trans hcond h)

theorem fullMonthsDiff_cursor_le {c e : Int} (hc : c ≤ e) :
    addDate c 0 (fullMonthsDiff c e) 0 ≤ e := by
  have hs := fullMonthsDiff_spec hc
  rcases eq_or_lt_of_le hs.2.1 with heq | hpos
  · rw [← heq, addDate_self]
    exact hc
  · have h := hs.2.2 (fullMonthsDiff c e - 1) (by omega) (by omega)
    have e1 : fullMonthsDiff c e - 1 + 1 = fullMonthsDiff c e := by ring
    rw [e1] at h
    exact h

theorem monthsTotal_mono (s : Int) {e1 e2 : Int} (h : e1 ≤ e2) :
    fullYearsDiff s e1 * 12 +
      fullMonthsDiff (addDate s (fullYearsDiff s e1) 0 0) e1 ≤
    fullYearsDiff s e2 * 12 +
      fullMonthsDiff (addDate s (fullYearsDiff s e2) 0 0) e2 := by
  have hY := fullYearsDiff_mono s h
  rcases eq_or_lt_of_le hY with heq | hlt
  · rw [← heq]
    have hc1 : addDate s (fullYearsDiff s e1) 0 0 ≤ e1 := (fullYearsDiff_sandwich s e1).1
    have := fullMonthsDiff_mono (addDate s (fullYearsDiff s e1) 0 0) hc1 h
    omega
  · have hj1 := fullMonthsDiff_cursor_le_11 s e1
    have hc2 : addDate s (fullYearsDiff s e2) 0 0 ≤ e2 := (fullYearsDiff_sandwich s e2).1
    have hj2 := (fullMonthsDiff_spec hc2).2.1
    omega

theorem dYears_yearsSel {mode : Nat} (hbY : mode &&& ModeYears ≠ 0) (s e : Int) :
    dYears s e mode = fullYearsDiff s e := by
  unfold dYears; rw [if_pos hbY]

theorem dYears_noYears {mode : Nat} (hbY : mode &&& ModeYears = 0) (s e : Int) :
    dYears s e mode = 0 := by
  unfold dYears; rw [if_neg (fun hh => hh hbY)]

theorem dCursor1_noYears {mode : Nat} (hbY : mode &&& ModeYears = 0) (s e : Int) :
    dCursor1 s e mode = s := by
  unfold dCursor1; rw [if_neg (fun hh => hh hbY)]

theorem dMonths_yearsSel {mode : Nat} (hbM : mode &&& ModeMonths ≠ 0)
    (hbY : mode &&& ModeYears ≠ 0) (s e : Int) :
    dMonths s e mode = fullMonthsDiff (dCursor1 s e mode) e := by
  have hIY : dIYears s e mode = 0 := by
    unfold dIYears
    rw [if_pos hbM, if_neg (fun hh : mode &&& ModeYears = 0 => hbY hh)]
  unfold dMonths
  rw [if_pos hbM, hIY, addDate_self]
  ring

theorem dMonths_noYears {mode : Nat} (hbM : mode &&& ModeMonths ≠ 0)
    (hbY : mode &&& ModeYears = 0) (s e : Int) :
    dMonths s e mode = fullYearsDiff s e * 12 +
      fullMonthsDiff (addDate s (fullYearsDiff s e) 0 0) e := by
  have hC1 := dCursor1_noYears hbY s e
  have hIY : dIYears s e mode = fullYearsDiff s e := by
    unfold dIYears
    rw [if_pos hbM, if_pos hbY, hC1]
  unfold dMonths
  rw [if_pos hbM, hIY, hC1]

theorem dCursor1_le {s e : Int} (hse : s ≤ e) (mode : Nat) :
    dCursor1 s e mode ≤ e := by
  unfold dCursor1
  split_ifs with hb
  · rw [dYears_yearsSel hb]
    exact (fullYearsDiff_sandwich s e).1
  · exact hse

theorem dCursor2_le {s e : Int} (hse : s ≤ e) (mode : Nat) :
    dCursor2 s e mode ≤ e := by
  have hc1 := dCursor1_le hse mode
  unfold dCursor2
  split_ifs with hbM
  · by_cases hbY : mode &&& ModeYears ≠ 0
    · rw [dMonths_yearsSel hbM hbY]
      exact fullMonthsDiff_cursor_le hc1
    · push_neg at hbY
      rw [dMonths_noYears hbM hbY, dCursor1_noYears hbY]
      have hge := addDate_cursor_ge s (fullYearsDiff s e)
        (fullMonthsDiff (addDate s (fullYearsDiff s e) 0 0) e)
      have hle := fullMonthsDiff_cursor_le (c := addDate s (fullYearsDiff s e) 0 0)
        (fullYearsDiff_sandwich s e).1
      have e1 : fullYearsDiff s e * 12 +
          fullMonthsDiff (addDate s (fullYearsDiff s e) 0 0) e =
          12 * fullYearsDiff s e +
          fullMonthsDiff (addDate s (fullYearsDiff s e) 0 0) e := by ring
      rw [e1]
      omega
  · exact hc1

theorem dCursor3_le {s e : Int} (hse : s ≤ e) (mode : Nat) :
    dCursor3 s e mode ≤ e := by
  have hc2 := dCursor2_le hse mode
  unfold dCursor3
  split_ifs with hbW
  · have hW : dWeeks s e mode = fullWeeksDiff (dCursor2 s e mode) e := by
      unfold dWeeks; rw [if_pos hbW]
    rw [hW, fullWeeksDiff_eq hc2, addDate_days]
    omega
  · exact hc2

theorem dCursor1_congr {s e1 e2 : Int} {mode : Nat}
    (h : dYears s e1 mode = dYears s e2 mode) :
    dCursor1 s e1 mode = dCursor1 s e2 mode := by
  unfold dCursor1
  split_ifs with hb
  · rw [h]
  · rfl

theorem dCursor2_congr {s e1 e2 : Int} {mode : Nat}
    (hY : dYears s e1 mode = dYears s e2 mode)
    (hM : dMonths s e1 mode = dMonths s e2 mode) :
    dCursor2 s e1 mode = dCursor2 s e2 mode := by
  unfold dCursor2
  split_ifs with hb
  · rw [dCursor1_congr hY, hM]
  · exact dCursor1_congr hY

theorem dCursor3_congr {s e1 e2 : Int} {mode : Nat}
    (hY : dYears s e1 mode = dYears s e2 mode)
    (hM : dMonths s e1 mode = dMonths s e2 mode)
    (hW : dWeeks s e1 mode = dWeeks s e2 mode) :
    dCursor3 s e1 mode = dCursor3 s e2 mode := by
  unfold dCursor3
  split_ifs with hb
  · rw [dCursor2_congr hY hM, hW]
  · exact dCursor2_congr hY hM

theorem replaceAllAux_fuel_irrel {pat rep : List Char} (hpat : pat ≠ []) :
    ∀ (fuel fuel' : Nat) (s : List Char), s.length ≤ fuel → s.length ≤ fuel' →
    replaceAllAux pat rep fuel s = replaceAllAux pat rep fuel' s := by
  intro fuel
  induction fuel with
  | zero =>
    intro fuel' s hs hs'
    have : s = [] := by
      cases s with
      | nil => rfl
      | cons c t => simp at hs
    subst this
    cases fuel' <;> rfl
  | succ f ih =>
    intro fuel' s hs hs'
    cases s with
    | nil => cases fuel' <;> rfl
    | cons c t =>
      cases fuel' with
      | zero => simp at hs'
      | succ f' =>
        simp only [replaceAllAux]
        by_cases hm : prefixMatch pat (c :: t) = true
        · rw [if_pos hm, if_pos hm]
          have hlen : ((c :: t).drop pat.length).length ≤ f := by
            cases pat with
            | nil => exact absurd rfl hpat
            | cons p ps =>
              simp [List.length_drop] at *
              omega
          have hlen' : ((c :: t).drop pat.length).length ≤ f' := by
            cases pat with
            | nil => exact absurd rfl hpat
            | cons p ps =>
              simp [List.length_drop] at *
              omega
          rw [ih f' _ hlen hlen']
        · rw [if_neg hm, if_neg hm]
          have hlen : t.length ≤ f := by simp at hs; omega
          have hlen' : t.length ≤ f' := by simp at hs'; omega
          rw [ih f' t hlen hlen']

theorem replaceAll_nil (pat rep : List Char) : replaceAll [] pat rep = [] := by
  unfold replaceAll
  split_ifs
  · rfl
  · rfl

theorem replaceAll_cons_match {c : Char} {rest pat rep : List Char} (hpat : pat ≠ [])
    (h : prefixMatch pat (c :: rest) = true) :
    replaceAll (c :: rest) pat rep =
      rep ++ replaceAll ((c :: rest).drop pat.length) pat rep := by
  unfold replaceAll
  have hne : ¬ pat.isEmpty = true := by
    cases pat
    · exact absurd rfl hpat
    · simp
  rw [if_neg hne, if_neg hne]
  have e1 : (c :: rest).length = rest.length + 1 := by simp
  rw [e1]
  simp only [replaceAllAux, if_pos h]
  congr 1
  apply replaceAllAux_fuel_irrel hpat
  · cases pat with
    | nil => exact absurd rfl hpat
    | cons p ps =>
      simp only [List.length_drop, List.length_cons]
      omega
  · exact le_rfl

theorem replaceAll_cons_nomatch {c : Char} {rest pat rep : List Char}
    (h : prefixMatch pat (c :: rest) = false) :
    replaceAll (c :: rest) pat rep = c :: replaceAll rest pat rep := by
  have hpat : pat ≠ [] := by
    intro hh
    subst hh
    simp [prefixMatch] at h
  unfold replaceAll
  have hne : ¬ pat.isEmpty = true := by
    cases pat
    · exact absurd rfl hpat
    · simp
  rw [if_neg hne, if_neg hne]
  have e1 : (c :: rest).length = rest.length + 1 := by simp
  rw [e1]
  simp only [replaceAllAux]
  rw [if_neg (by rw [h]; exact Bool.false_ne_true)]

theorem fvLetter_ne_pct (v : FVerb) : fvLetter v ≠ '%' := by
  cases v <;> decide

theorem fvLetter_ne_space (v : FVerb) : fvLetter v ≠ ' ' := by
  cases v <;> decide

theorem fvLetter_inj {v u : FVerb} (h : fvLetter v = fvLetter u) : v = u := by
  cases v <;> cases u <;> revert h <;> decide

theorem beq_false_of_ne {a b : Char} (h : a ≠ b) : (a == b) = false :=
  beq_eq_false_iff_ne.mpr h

theorem digitChar_spec (n : Nat) : digitChar n ≠ '%' ∧ digitChar n ≠ ' ' := by
  unfold digitChar
  split_ifs <;> exact ⟨by decide, by decide⟩

theorem natChars_no_pct (fuel n : Nat) : '%' ∉ natChars fuel n := by
  induction fuel generalizing n with
  | zero => simp [natChars]
  | succ f ih =>
    unfold natChars
    split_ifs with h
    · intro hmem
      simp only [List.mem_singleton] at hmem
      exact (digitChar_spec n).1 hmem.symm
    · intro hmem
      rcases List.mem_append.mp hmem with h1 | h2
      · exact ih _ h1
      · simp only [List.mem_singleton] at h2
        exact (digitChar_spec _).1 h2.symm

theorem itoa_no_pct (n : Int) : '%' ∉ itoa n := by
  unfold itoa
  split_ifs with h
  · intro hmem
    rcases List.mem_cons.mp hmem with h1 | h2
    · exact absurd h1 (by decide)
    · exact natChars_no_pct _ _ h2
  · exact natChars_no_pct _ _

theorem formatNoun_no_pct (n : Int) {s : List Char} (hs : '%' ∉ s) :
    '%' ∉ formatNoun n s := by
  unfold formatNoun
  intro hmem
  rcases List.mem_append.mp hmem with h1 | h2
  · exact itoa_no_pct n h1
  · rcases List.mem_cons.mp h2 with h3 | h4
    · exact absurd h3 (by decide)
    · rcases List.mem_append.mp h4 with h5 | h6
      · exact hs h5
      · revert h6
        split_ifs <;> decide

theorem fvUnit_no_pct (v : FVerb) : '%' ∉ fvUnit v := by
  cases v <;> decide

theorem fvRender_no_pct (diff : Diff) (v : FVerb) : '%' ∉ fvRender diff v := by
  unfold fvRender
  split_ifs with h
  · exact formatNoun_no_pct _ (fvUnit_no_pct v)
  · exact itoa_no_pct _

theorem natChars_ne_nil (fuel n : Nat) : natChars (fuel + 1) n ≠ [] := by
  unfold natChars
  split_ifs with h
  · simp
  · simp

theorem itoa_ne_nil (n : Int) : itoa n ≠ [] := by
  unfold itoa
  split_ifs with h
  · simp
  · exact natChars_ne_nil _ _

theorem formatNoun_ne_nil (n : Int) (s : List Char) : formatNoun n s ≠ [] := by
  unfold formatNoun
  intro hh
  rcases List.append_eq_nil.mp hh with ⟨h1, _⟩
  exact itoa_ne_nil n h1

theorem fvRender_ne_nil (diff : Diff) (v : FVerb) : fvRender diff v ≠ [] := by
  unfold fvRender
  split_ifs with h
  · exact formatNoun_ne_nil _ _
  · exact itoa_ne_nil _

theorem mixedTail_shape (elide : Bool) (diff : Diff) (f : FVerb → Bool)
    (vs : List FVerb) :
    mixedTail elide diff f vs = [] ∨
    ∃ t', mixedTail elide diff f vs = ' ' :: t' := by
  induction vs with
  | nil => left; rfl
  | cons v rest ih =>
    simp only [mixedTail]
    split_ifs with h1 h2
    · simpa using ih
    · right
      exact ⟨_, rfl⟩
    · right
      exact ⟨_, rfl⟩

theorem replaceAll_append_pct {a : List Char} (ha : '%' ∉ a)
    (b pat' rep : List Char) :
    replaceAll (a ++ b) ('%' :: pat') rep = a ++ replaceAll b ('%' :: pat') rep := by
  induction a with
  | nil => simp
  | cons c t ih =>
    have hc : c ≠ '%' := fun hh => ha (by rw [hh]; exact List.mem_cons_self _ _)
    have hm : prefixMatch ('%' :: pat') (c :: (t ++ b)) = false := by
      simp only [prefixMatch]
      rw [beq_false_of_ne (fun hh => hc hh.symm), Bool.false_and]
    rw [List.cons_append, replaceAll_cons_nomatch hm,
      ih (fun hmem => ha (List.mem_cons_of_mem _ hmem))]
    rfl

theorem replaceAll_append_sp {a : List Char} (ha : '%' ∉ a) {b : List Char}
    (hb : b = [] ∨ ∃ t', b = ' ' :: t') (ℓ : Char) (rep : List Char) :
    replaceAll (a ++ b) (' ' :: '%' :: [ℓ]) rep =
      a ++ replaceAll b (' ' :: '%' :: [ℓ]) rep := by
  induction a with
  | nil => simp
  | cons c t ih =>
    have hc : c ≠ '%' := fun hh => ha (by rw [hh]; exact List.mem_cons_self _ _)
    have hm : prefixMatch (' ' :: '%' :: [ℓ]) (c :: (t ++ b)) = false := by
      by_cases hcs : c = ' '
      · subst hcs
        cases t with
        | nil =>
          rcases hb with rfl | ⟨t', rfl⟩
          · simp [prefixMatch]
          · simp only [List.nil_append, prefixMatch]
            rw [beq_false_of_ne (show ('%' : Char) ≠ ' ' by decide), Bool.false_and,
              Bool.and_false]
        | cons c2 t2 =>
          have hc2 : c2 ≠ '%' := fun hh =>
            ha (by rw [hh]; exact List.mem_cons_of_mem _ (List.mem_cons_self _ _))
          simp only [List.cons_append, prefixMatch]
          rw [beq_false_of_ne (fun hh => hc2 hh.symm), Bool.false_and, Bool.and_false]
      · simp only [prefixMatch]
        rw [beq_false_of_ne (fun hh => hcs hh.symm), Bool.false_and]
    rw [List.cons_append, replaceAll_cons_nomatch hm,
      ih (fun hmem => ha (List.mem_cons_of_mem _ hmem))]
    rfl

theorem replaceAll_tok_skip_pct {ℓ ℓ' : Char} (hne : ℓ ≠ ℓ') (hp : ℓ' ≠ '%')
    (t rep : List Char) :
    replaceAll ('%' :: ℓ' :: t) ('%' :: [ℓ]) rep =
      '%' :: ℓ' :: replaceAll t ('%' :: [ℓ]) rep := by
  have hm1 : prefixMatch ('%' :: [ℓ]) ('%' :: ℓ' :: t) = false := by
    simp only [prefixMatch]
    rw [beq_false_of_ne hne]
    simp
  have hm2 : prefixMatch ('%' :: [ℓ]) (ℓ' :: t) = false := by
    simp only [prefixMatch]
    rw [beq_false_of_ne (fun hh => hp hh.symm), Bool.false_and]
  rw [replaceAll_cons_nomatch hm1, replaceAll_cons_nomatch hm2]

theorem replaceAll_tok_skip_sp {ℓ' : Char} (hs : ℓ' ≠ ' ')
    (ℓ : Char) (t rep : List Char) :
    replaceAll ('%' :: ℓ' :: t) (' ' :: '%' :: [ℓ]) rep =
      '%' :: ℓ' :: replaceAll t (' ' :: '%' :: [ℓ]) rep := by
  have hm1 : prefixMatch (' ' :: '%' :: [ℓ]) ('%' :: ℓ' :: t) = false := by
    simp only [prefixMatch]
    rw [beq_false_of_ne (show (' ' : Char) ≠ '%' by decide), Bool.false_and]
  have hm2 : prefixMatch (' ' :: '%' :: [ℓ]) (ℓ' :: t) = false := by
    simp only [prefixMatch]
    rw [beq_false_of_ne (fun hh => hs hh.symm), Bool.false_and]
  rw [replaceAll_cons_nomatch hm1, replaceAll_cons_nomatch hm2]

theorem replaceAll_tok_match_pct (ℓ : Char) (t rep : List Char) :
    replaceAll ('%' :: ℓ :: t) ('%' :: [ℓ]) rep =
      rep ++ replaceAll t ('%' :: [ℓ]) rep := by
  have hm : prefixMatch ('%' :: [ℓ]) ('%' :: ℓ :: t) = true := by
    simp [prefixMatch]
  rw [replaceAll_cons_match (by simp) hm]
  rfl

theorem replaceAll_tok_match_sp (ℓ : Char) (t rep : List Char) :
    replaceAll (' ' :: '%' :: ℓ :: t) (' ' :: '%' :: [ℓ]) rep =
      rep ++ replaceAll t (' ' :: '%' :: [ℓ]) rep := by
  have hm : prefixMatch (' ' :: '%' :: [ℓ]) (' ' :: '%' :: ℓ :: t) = true := by
    simp [prefixMatch]
  rw [replaceAll_cons_match (by simp) hm]
  rfl

theorem mixedTail_congr {elide : Bool} {diff : Diff} {f g : FVerb → Bool}
    {vs : List FVerb} (h : ∀ v ∈ vs, f v = g v) :
    mixedTail elide diff f vs = mixedTail elide diff g vs := by
  induction vs with
  | nil => rfl
  | cons v rest ih =>
    simp only [mixedTail]
    rw [h v (List.mem_cons_self _ _),
      ih (fun w hw => h w (List.mem_cons_of_mem _ hw))]

theorem mixed_congr {elide : Bool} {diff : Diff} {f g : FVerb → Bool}
    {vs : List FVerb} (h : ∀ v ∈ vs, f v = g v) :
    mixed elide diff f vs = mixed elide diff g vs := by
  cases vs with
  | nil => rfl
  | cons v rest =>
    simp only [mixed, mixedSeg]
    rw [h v (List.mem_cons_self _ _),
      mixedTail_congr (fun w hw => h w (List.mem_cons_of_mem _ hw))]

theorem sp_head_nomatch (ℓ : Char) (t : List Char) :
    prefixMatch ('%' :: [ℓ]) (' ' :: t) = false := by
  simp only [prefixMatch]
  rw [beq_false_of_ne (show ('%' : Char) ≠ ' ' by decide), Bool.false_and]

theorem verbPass_tail (elide : Bool) (diff : Diff) (u : FVerb)
    (hnz : ¬ (elide = true ∧ fvCount diff u = 0)) :
    ∀ (vs : List FVerb) (f : FVerb → Bool),
    replaceAll (mixedTail elide diff f vs) ('%' :: [fvLetter u]) (fvRender diff u) =
      mixedTail elide diff (fun w => if w = u then true else f w) vs := by
  intro vs
  induction vs with
  | nil => intro f; exact replaceAll_nil _ _
  | cons v rest ih =>
    intro f
    simp only [mixedTail]
    by_cases hf : f v = true
    · have hf' : (if v = u then true else f v) = true := by
        split_ifs
        · rfl
        · exact hf
      rw [if_pos hf, if_pos hf']
      by_cases hz : elide = true ∧ fvCount diff v = 0
      · rw [if_pos hz]
        simp only [List.nil_append]
        exact ih f
      · rw [if_neg hz]
        have hstep : (' ' :: fvRender diff v) ++ mixedTail elide diff f rest =
            ' ' :: (fvRender diff v ++ mixedTail elide diff f rest) := rfl
        rw [hstep, replaceAll_cons_nomatch (sp_head_nomatch _ _),
          replaceAll_append_pct (fvRender_no_pct diff v), ih f]
        rfl
    · by_cases hvu : v = u
      · subst hvu
        rw [if_neg hf, if_pos (show (if v = v then true else f v) = true by simp),
          if_neg hnz]
        have hstep : (' ' :: fvChars v) ++ mixedTail elide diff f rest =
            ' ' :: '%' :: fvLetter v :: mixedTail elide diff f rest := rfl
        rw [hstep, replaceAll_cons_nomatch (sp_head_nomatch _ _),
          replaceAll_tok_match_pct, ih f]
        rfl
      · rw [if_neg hf,
          if_neg (show ¬ ((if v = u then true else f v) = true) by
            rw [if_neg hvu]; exact hf)]
        have hstep : (' ' :: fvChars v) ++ mixedTail elide diff f rest =
            ' ' :: '%' :: fvLetter v :: mixedTail elide diff f rest := rfl
        rw [hstep, replaceAll_cons_nomatch (sp_head_nomatch _ _),
          replaceAll_tok_skip_pct
            (fun hh => hvu (fvLetter_inj hh).symm) (fvLetter_ne_pct v),
          ih f]
        rfl

theorem verbPass (elide : Bool) (diff : Diff) (u : FVerb)
    (hnz : ¬ (elide = true ∧ fvCount diff u = 0)) (vs : List FVerb)
    (f : FVerb → Bool) :
    replaceAll (mixed elide diff f vs) ('%' :: [fvLetter u]) (fvRender diff u) =
      mixed elide diff (fun w => if w = u then true else f w) vs := by
  cases vs with
  | nil => exact replaceAll_nil _ _
  | cons v rest =>
    simp only [mixed, mixedSeg]
    by_cases hf : f v = true
    · have hf' : (if v = u then true else f v) = true := by
        split_ifs
        · rfl
        · exact hf
      rw [if_pos hf, if_pos hf']
      by_cases hz : elide = true ∧ fvCount diff v = 0
      · rw [if_pos hz]
        simp only [List.nil_append]
        exact verbPass_tail elide diff u hnz rest f
      · rw [if_neg hz]
        rw [replaceAll_append_pct (fvRender_no_pct diff v),
          verbPass_tail elide diff u hnz rest f]
    · by_cases hvu : v = u
      · subst hvu
        rw [if_neg hf, if_pos (show (if v = v then true else f v) = true by simp),
          if_neg hnz]
        have hstep : fvChars v ++ mixedTail elide diff f rest =
            '%' :: fvLetter v :: mixedTail elide diff f rest := rfl
        rw [hstep, replaceAll_tok_match_pct, verbPass_tail elide diff v hnz rest f]
      · rw [if_neg hf,
          if_neg (show ¬ ((if v = u then true else f v) = true) by
            rw [if_neg hvu]; exact hf)]
        have hstep : fvChars v ++ mixedTail elide diff f rest =
            '%' :: fvLetter v :: mixedTail elide diff f rest := rfl
        rw [hstep,
          replaceAll_tok_skip_pct
            (fun hh => hvu (fvLetter_inj hh).symm) (fvLetter_ne_pct v),
          verbPass_tail elide diff u hnz rest f]
        rfl

theorem space_render_no_pct (diff : Diff) (v : FVerb) :
    '%' ∉ ' ' :: fvRender diff v := by
  intro hmem
  rcases List.mem_cons.mp hmem with h1 | h2
  · exact absurd h1 (by decide)
  · exact fvRender_no_pct diff v h2

theorem zeroPass1_tail (elide : Bool) (diff : Diff) (u : FVerb)
    (helide : elide = true) (hcz : fvCount diff u = 0) :
    ∀ (vs : List FVerb) (f : FVerb → Bool),
    replaceAll (mixedTail elide diff f vs) (' ' :: '%' :: [fvLetter u]) [] =
      mixedTail elide diff (fun w => if w = u then true else f w) vs := by
  intro vs
  induction vs with
  | nil => intro f; exact replaceAll_nil _ _
  | cons v rest ih =>
    intro f
    simp only [mixedTail]
    by_cases hf : f v = true
    · have hf' : (if v = u then true else f v) = true := by
        split_ifs
        · rfl
        · exact hf
      rw [if_pos hf, if_pos hf']
      by_cases hz : elide = true ∧ fvCount diff v = 0
      · rw [if_pos hz]
        simp only [List.nil_append]
        exact ih f
      · rw [if_neg hz]
        rw [replaceAll_append_sp (space_render_no_pct diff v)
            (mixedTail_shape elide diff f rest) _ _,
          ih f]
    · by_cases hvu : v = u
      · subst hvu
        rw [if_neg hf, if_pos (show (if v = v then true else f v) = true by simp),
          if_pos (show elide = true ∧ fvCount diff v = 0 from ⟨helide, hcz⟩)]
        have hstep : (' ' :: fvChars v) ++ mixedTail elide diff f rest =
            ' ' :: '%' :: fvLetter v :: mixedTail elide diff f rest := rfl
        rw [hstep, replaceAll_tok_match_sp, ih f]
      · rw [if_neg hf,
          if_neg (show ¬ ((if v = u then true else f v) = true) by
            rw [if_neg hvu]; exact hf)]
        have hne : fvLetter u ≠ fvLetter v := fun hh => hvu (fvLetter_inj hh).symm
        have hm : prefixMatch (' ' :: '%' :: [fvLetter u])
            (' ' :: '%' :: fvLetter v :: mixedTail elide diff f rest) = false := by
          simp only [prefixMatch]
          rw [beq_false_of_ne hne, Bool.false_and, Bool.and_false, Bool.and_false]
        have hstep : (' ' :: fvChars v) ++ mixedTail elide diff f rest =
            ' ' :: '%' :: fvLetter v :: mixedTail elide diff f rest := rfl
        rw [hstep, replaceAll_cons_nomatch hm,
          replaceAll_tok_skip_sp (fvLetter_ne_space v) _ _ _, ih f]
        rfl

theorem zeroPass1_head (elide : Bool) (diff : Diff) (u : FVerb)
    (helide : elide = true) (hcz : fvCount diff u = 0)
    (v : FVerb) (rest : List FVerb) (f : FVerb → Bool) :
    replaceAll (mixed elide diff f (v :: rest)) (' ' :: '%' :: [fvLetter u]) [] =
      mixedSeg elide diff f v ++
        mixedTail elide diff (fun w => if w = u then true else f w) rest := by
  simp only [mixed, mixedSeg]
  by_cases hf : f v = true
  · rw [if_pos hf]
    by_cases hz : elide = true ∧ fvCount diff v = 0
    · rw [if_pos hz]
      simp only [List.nil_append]
      exact zeroPass1_tail elide diff u helide hcz rest f
    · rw [if_neg hz]
      rw [replaceAll_append_sp (fvRender_no_pct diff v)
          (mixedTail_shape elide diff f rest) _ _,
        zeroPass1_tail elide diff u helide hcz rest f]
  · rw [if_neg hf]
    have hstep : fvChars v ++ mixedTail elide diff f rest =
        '%' :: fvLetter v :: mixedTail elide diff f rest := rfl
    rw [hstep, replaceAll_tok_skip_sp (fvLetter_ne_space v) _ _ _,
      zeroPass1_tail elide diff u helide hcz rest f]
    rfl

theorem noopPass_tail (elide : Bool) (diff : Diff) (u : FVerb) (rep : List Char) :
    ∀ (vs : List FVerb) (g : FVerb → Bool), g u = true →
    replaceAll (mixedTail elide diff g vs) ('%' :: [fvLetter u]) rep =
      mixedTail elide diff g vs := by
  intro vs
  induction vs with
  | nil => intro g _; exact replaceAll_nil _ _
  | cons v rest ih =>
    intro g hgu
    simp only [mixedTail]
    by_cases hg : g v = true
    · rw [if_pos hg]
      by_cases hz : elide = true ∧ fvCount diff v = 0
      · rw [if_pos hz]
        simp only [List.nil_append]
        exact ih g hgu
      · rw [if_neg hz]
        have hstep : (' ' :: fvRender diff v) ++ mixedTail elide diff g rest =
            ' ' :: (fvRender diff v ++ mixedTail elide diff g rest) := rfl
        rw [hstep, replaceAll_cons_nomatch (sp_head_nomatch _ _),
          replaceAll_append_pct (fvRender_no_pct diff v), ih g hgu]
    · have hvu : v ≠ u := fun hh => hg (by rw [hh]; exact hgu)
      rw [if_neg hg]
      have hstep : (' ' :: fvChars v) ++ mixedTail elide diff g rest =
          ' ' :: '%' :: fvLetter v :: mixedTail elide diff g rest := rfl
      rw [hstep, replaceAll_cons_nomatch (sp_head_nomatch _ _),
        replaceAll_tok_skip_pct
          (fun hh => hvu (fvLetter_inj hh).symm) (fvLetter_ne_pct v),
        ih g hgu]

theorem zeroPass2 (elide : Bool) (diff : Diff) (u : FVerb)
    (helide : elide = true) (hcz : fvCount diff u = 0)
    (v : FVerb) (rest : List FVerb) (f : FVerb → Bool) :
    replaceAll (mixedSeg elide diff f v ++
        mixedTail elide diff (fun w => if w = u then true else f w) rest)
      ('%' :: [fvLetter u]) [] =
      mixed elide diff (fun w => if w = u then true else f w) (v :: rest) := by
  have hgu : (fun w => if w = u then true else f w) u = true := by simp
  simp only [mixed, mixedSeg]
  by_cases hf : f v = true
  · have hf' : (if v = u then true else f v) = true := by
      split_ifs
      · rfl
      · exact hf
    rw [if_pos hf, if_pos hf']
    by_cases hz : elide = true ∧ fvCount diff v = 0
    · rw [if_pos hz]
      simp only [List.nil_append]
      exact noopPass_tail elide diff u [] rest _ hgu
    · rw [if_neg hz]
      rw [replaceAll_append_pct (fvRender_no_pct diff v),
        noopPass_tail elide diff u [] rest _ hgu]
  · by_cases hvu : v = u
    · subst hvu
      rw [if_neg hf, if_pos (show (if v = v then true else f v) = true by simp),
        if_pos (show elide = true ∧ fvCount diff v = 0 from ⟨helide, hcz⟩)]
      have hstep : fvChars v ++
          mixedTail elide diff (fun w => if w = v then true else f w) rest =
          '%' :: fvLetter v ::
            mixedTail elide diff (fun w => if w = v then true else f w) rest := rfl
      rw [hstep, replaceAll_tok_match_pct,
        noopPass_tail elide diff v [] rest _ (by simp)]
    · rw [if_neg hf,
        if_neg (show ¬ ((if v = u then true else f v) = true) by
          rw [if_neg hvu]; exact hf)]
      have hstep : fvChars v ++
          mixedTail elide diff (fun w => if w = u then true else f w) rest =
          '%' :: fvLetter v ::
            mixedTail elide diff (fun w => if w = u then true else f w) rest := rfl
      rw [hstep,
        replaceAll_tok_skip_pct
          (fun hh => hvu (fvLetter_inj hh).symm) (fvLetter_ne_pct v),
        noopPass_tail elide diff u [] rest _ hgu]

theorem zeroPass (diff : Diff) (u : FVerb) (hcz : fvCount diff u = 0)
    (vs : List FVerb) (f : FVerb → Bool) :
    zeroVerbReplace (mixed true diff f vs) (fvChars u) =
      mixed true diff (fun w => if w = u then true else f w) vs := by
  unfold zeroVerbReplace
  cases vs with
  | nil =>
    rw [show mixed true diff f [] = [] from rfl, replaceAll_nil, replaceAll_nil]
    rfl
  | cons v rest =>
    have e1 : (' ' :: fvChars u) = ' ' :: '%' :: [fvLetter u] := rfl
    have e2 : fvChars u = '%' :: [fvLetter u] := rfl
    rw [e1, e2, zeroPass1_head true diff u rfl hcz v rest f,
      zeroPass2 true diff u rfl hcz v rest f]

theorem canonTail_eq (v : FVerb) (rest : List FVerb) :
    canonTail (v :: rest) = ' ' :: canonFormat (v :: rest) := rfl

theorem canonFormat_contains (u : FVerb) :
    ∀ (vs : List FVerb),
    containsSub (canonFormat vs) (fvChars u) = decide (u ∈ vs) := by
  intro vs
  induction vs with
  | nil => simp [canonFormat, containsSub, prefixMatch, fvChars]
  | cons v rest ih =>
    have hshape : canonFormat (v :: rest) =
        '%' :: fvLetter v :: canonTail rest := rfl
    rw [hshape]
    simp only [containsSub]
    by_cases hvu : v = u
    · subst hvu
      simp [prefixMatch, fvChars]
    · have h1 : prefixMatch (fvChars u) ('%' :: fvLetter v :: canonTail rest)
          = false := by
        simp only [fvChars, prefixMatch]
        rw [beq_false_of_ne (show fvLetter u ≠ fvLetter v from
          fun hh => hvu (fvLetter_inj hh).symm)]
        simp
      have h2 : prefixMatch (fvChars u) (fvLetter v :: canonTail rest)
          = false := by
        simp only [fvChars, prefixMatch]
        rw [beq_false_of_ne (show ('%' : Char) ≠ fvLetter v from
          fun hh => fvLetter_ne_pct v hh.symm), Bool.false_and]
      rw [h1, h2]
      simp only [Bool.false_or]
      have hmem : decide (u ∈ v :: rest) = decide (u ∈ rest) := by
        apply decide_eq_decide.mpr
        constructor
        · intro h
          rcases List.mem_cons.mp h with h | h
          · exact absurd h.symm hvu
          · exact h
        · exact List.mem_cons_of_mem _
      rw [hmem]
      cases rest with
      | nil => simp [canonTail, containsSub, prefixMatch, fvChars]
      | cons w rr =>
        rw [canonTail_eq w rr]
        have hcs : containsSub (' ' :: canonFormat (w :: rr)) (fvChars u) =
            (prefixMatch (fvChars u) (' ' :: canonFormat (w :: rr)) ||
              containsSub (canonFormat (w :: rr)) (fvChars u)) := rfl
        have h3 : prefixMatch (fvChars u) (' ' :: canonFormat (w :: rr))
            = false := by
          simp only [fvChars]
          exact sp_head_nomatch _ _
        rw [hcs, h3, Bool.false_or, ih]

theorem mixedTail_start (elide : Bool) (diff : Diff) :
    ∀ (vs : List FVerb),
    mixedTail elide diff (fun _ => false) vs = canonTail vs := by
  intro vs
  induction vs with
  | nil => rfl
  | cons v rest ih => simp [mixedTail, canonTail, ih]

theorem mixed_start (elide : Bool) (diff : Diff) (vs : List FVerb) :
    mixed elide diff (fun _ => false) vs = canonFormat vs := by
  cases vs with
  | nil => rfl
  | cons v rest =>
    simp [mixed, mixedSeg, canonFormat, mixedTail_start]

theorem mixedTail_zeros (diff : Diff) :
    ∀ (vs : List FVerb),
    mixedTail false diff (fun _ => true) vs = expectedZerosTail diff vs := by
  intro vs
  induction vs with
  | nil => rfl
  | cons v rest ih => simp [mixedTail, expectedZerosTail, ih]

theorem mixed_zeros (diff : Diff) (vs : List FVerb) :
    mixed false diff (fun _ => true) vs = expectedZeros diff vs := by
  cases vs with
  | nil => rfl
  | cons v rest =>
    simp [mixed, mixedSeg, expectedZeros, mixedTail_zeros]

theorem mixedTail_elide (diff : Diff) :
    ∀ (vs : List FVerb),
    mixedTail true diff (fun _ => true) vs = expectedElideTail diff vs := by
  intro vs
  induction vs with
  | nil => rfl
  | cons v rest ih =>
    by_cases hz : fvCount diff v = 0 <;>
      simp [mixedTail, expectedElideTail, hz, ih]

theorem mixed_elide (diff : Diff) (vs : List FVerb) :
    mixed true diff (fun _ => true) vs = expectedElide diff vs := by
  cases vs with
  | nil => rfl
  | cons v rest =>
    by_cases hz : fvCount diff v = 0 <;>
      simp [mixed, mixedSeg, expectedElide, hz, mixedTail_elide]

theorem formatUnits_eq :
    formatUnits = fvList.map (fun u => (fvChars u, fvUnit u)) := rfl

theorem unitCount_fv (diff : Diff) (u : FVerb) :
    unitCount diff (fvUnit u) = fvCount diff u := by
  cases u <;> rfl

theorem verbReplace_eq (diff : Diff) (u : FVerb) (s : List Char) :
    verbReplace s (fvCount diff u) (fvChars u) (fvUnit u) =
      replaceAll s ('%' :: [fvLetter u]) (fvRender diff u) := by
  cases u <;> rfl

theorem formatWithZeros_inv (diff : Diff) (vs : List FVerb) :
    ∀ (us : List FVerb) (f : FVerb → Bool),
    List.foldl
      (fun result vu =>
        if containsSub (canonFormat vs) vu.1 then
          verbReplace result (unitCount diff vu.2) vu.1 vu.2
        else result)
      (mixed false diff f vs)
      (us.map (fun u => (fvChars u, fvUnit u))) =
      mixed false diff (fun w => if w ∈ us then true else f w) vs := by
  intro us
  induction us with
  | nil =>
    intro f
    simp only [List.map_nil, List.foldl_nil]
    exact mixed_congr (fun v _ => by simp)
  | cons u us' ih =>
    intro f
    simp only [List.map_cons, List.foldl_cons]
    by_cases hu : u ∈ vs
    · have hc : containsSub (canonFormat vs) (fvChars u) = true := by
        rw [canonFormat_contains]
        exact decide_eq_true hu
      rw [if_pos hc, unitCount_fv, verbReplace_eq,
        verbPass false diff u (fun hc' => Bool.noConfusion hc'.1) vs f,
        ih (fun w => if w = u then true else f w)]
      apply mixed_congr
      intro v _
      by_cases h1 : v ∈ us' <;> by_cases h2 : v = u <;>
        simp [h1, h2, List.mem_cons]
    · have hcf : containsSub (canonFormat vs) (fvChars u) = false := by
        rw [canonFormat_contains]
        exact decide_eq_false hu
      rw [if_neg (show ¬ (containsSub (canonFormat vs) (fvChars u) = true) by
          rw [hcf]; decide),
        ih f]
      apply mixed_congr
      intro v hv
      have hne : v ≠ u := fun hh => hu (hh ▸ hv)
      by_cases h1 : v ∈ us' <;> simp [h1, List.mem_cons, hne]

theorem format_inv (diff : Diff) (vs : List FVerb) :
    ∀ (us : List FVerb) (f : FVerb → Bool),
    List.foldl
      (fun result vu =>
        if containsSub (canonFormat vs) vu.1 then
          (if unitCount diff vu.2 = 0 then zeroVerbReplace result vu.1
           else verbReplace result (unitCount diff vu.2) vu.1 vu.2)
        else result)
      (mixed true diff f vs)
      (us.map (fun u => (fvChars u, fvUnit u))) =
      mixed true diff (fun w => if w ∈ us then true else f w) vs := by
  intro us
  induction us with
  | nil =>
    intro f
    simp only [List.map_nil, List.foldl_nil]
    exact mixed_congr (fun v _ => by simp)
  | cons u us' ih =>
    intro f
    simp only [List.map_cons, List.foldl_cons]
    by_cases hu : u ∈ vs
    · have hc : containsSub (canonFormat vs) (fvChars u) = true := by
        rw [canonFormat_contains]
        exact decide_eq_true hu
      rw [if_pos hc, unitCount_fv]
      by_cases hz : fvCount diff u = 0
      · rw [if_pos hz, zeroPass diff u hz vs f,
          ih (fun w => if w = u then true else f w)]
        apply mixed_congr
        intro v _
        by_cases h1 : v ∈ us' <;> by_cases h2 : v = u <;>
          simp [h1, h2, List.mem_cons]
      · rw [if_neg hz, verbReplace_eq,
          verbPass true diff u (fun hc' => hz hc'.2) vs f,
          ih (fun w => if w = u then true else f w)]
        apply mixed_congr
        intro v _
        by_cases h1 : v ∈ us' <;> by_cases h2 : v = u <;>
          simp [h1, h2, List.mem_cons]
    · have hcf : containsSub (canonFormat vs) (fvChars u) = false := by
        rw [canonFormat_contains]
        exact decide_eq_false hu
      rw [if_neg (show ¬ (containsSub (canonFormat vs) (fvChars u) = true) by
          rw [hcf]; decide),
        ih f]
      apply mixed_congr
      intro v hv
      have hne : v ≠ u := fun hh => hu (hh ▸ hv)
      by_cases h1 : v ∈ us' <;> simp [h1, List.mem_cons, hne]

theorem formatWithZeros_canon (diff : Diff) (vs : List FVerb) :
    formatWithZeros diff (canonFormat vs) = expectedZeros diff vs := by
  unfold formatWithZeros
  rw [formatUnits_eq]
  nth_rewrite 3 [show canonFormat vs = mixed false diff (fun _ => false) vs from
    (mixed_start false diff vs).symm]
  rw [formatWithZeros_inv diff vs fvList (fun _ => false)]
  have hfin : mixed false diff (fun w => if w ∈ fvList then true else false) vs
      = mixed false diff (fun _ => true) vs :=
    mixed_congr (fun v _ => by cases v <;> decide)
  rw [hfin, mixed_zeros]

theorem format_canon (diff : Diff) (vs : List FVerb) :
    format diff (canonFormat vs) = expectedElide diff vs := by
  unfold format
  rw [formatUnits_eq]
  nth_rewrite 3 [show canonFormat vs = mixed true diff (fun _ => false) vs from
    (mixed_start true diff vs).symm]
  rw [format_inv diff vs fvList (fun _ => false)]
  have hfin : mixed true diff (fun w => if w ∈ fvList then true else false) vs
      = mixed true diff (fun _ => true) vs :=
    mixed_congr (fun v _ => by cases v <;> decide)
  rw [hfin, mixed_elide]

/-! ## Claim theorems -/

theorem unmarshal_ne_startErr (fmt : List Char) :
    unmarshal fmt ≠ .err .startIsAfterEnd := by
  unfold unmarshal
  cases unmarshalScan fmt 0 with
  | done m =>
    show (if m = 0 then UnmarshalResult.err DiffError.undefinedDiffMode
        else UnmarshalResult.ok m) ≠ UnmarshalResult.err DiffError.startIsAfterEnd
    split_ifs with h
    · simp
    · simp
  | unknown c => simp
  | panicked => simp

/-- C4: the parser is not the total contract the spec describes: a format
string whose final character is `'%'` makes `unmarshal` read one byte past
the end of the string, a runtime panic, instead of returning an error or a
unit set. -/
theorem c4_trailing_pct_panics :
    unmarshal ['%'] = .panicked ∧ NewDiff 0 0 ['%'] = .panicked := by
  constructor
  · decide
  · decide

/-- C9: format-string parsing is not total: on any string ending in `'%'`,
such as `"abc%"`, the scan indexes past the end of the string (an
out-of-bounds access) rather than terminating with a unit set or error. -/
theorem c9_unmarshal_panics :
    unmarshal ['a', 'b', 'c', '%'] = .panicked := by decide

/-- C10: constructing by explicit unit set with mode 0 succeeds and yields
all-zero counts, while the format-string path can never produce mode 0
(`unmarshal` rejects it as `undefinedDiffMode`). -/
theorem c10_zero_mode (s e : Int) (hse : s ≤ e) :
    NewDiffWithMode s e 0 = .ok ⟨0, 0, 0, 0, [], 0⟩ ∧
    (∀ fmt m, unmarshal fmt = .ok m → m ≠ 0) := by
  constructor
  · have hnd : newDiff s e 0 = ⟨0, 0, 0, 0, [], 0⟩ := by
      rw [newDiff_eq]
      have hY : dYears s e 0 = 0 := dYears_noYears (by decide) s e
      have hM : dMonths s e 0 = 0 := by unfold dMonths; rw [if_neg (by decide)]
      have hW : dWeeks s e 0 = 0 := by unfold dWeeks; rw [if_neg (by decide)]
      have hD : dDays s e 0 = 0 := by unfold dDays; rw [if_neg (by decide)]
      rw [hY, hM, hW, hD]
    unfold NewDiffWithMode
    rw [if_neg (by omega), hnd]
  · intro fmt m hm
    unfold unmarshal at hm
    cases hscan : unmarshalScan fmt 0 <;> rw [hscan] at hm
    · next m' =>
      have hm' : (if m' = 0 then UnmarshalResult.err DiffError.undefinedDiffMode
          else UnmarshalResult.ok m') = UnmarshalResult.ok m := hm
      split_ifs at hm' with h0
      injection hm' with h
      omega
    · exact absurd hm (by simp)
    · exact absurd hm (by simp)

theorem c10_zero_mode_witness :
    NewDiffWithMode 0 5 0 = .ok ⟨0, 0, 0, 0, [], 0⟩ ∧
    (∀ fmt m, unmarshal fmt = .ok m → m ≠ 0) :=
  c10_zero_mode 0 5 (by decide)

/-- C8: `Diff.Equal` compares exactly the four counts, ignoring the stored
format string and mode; two results built by `NewDiff` from the same date
pair with formats naming the same unit set are `Equal`. -/
theorem c8_equal_counts (d other : Diff) :
    (d.Equal other = true ↔
      (d.Years = other.Years ∧ d.Months = other.Months ∧
       d.Weeks = other.Weeks ∧ d.Days = other.Days)) ∧
    (∀ (s e : Int) (f1 f2 : List Char) (m1 m2 : Nat),
      unmarshal f1 = .ok m1 → unmarshal f2 = .ok m2 → m1 = m2 →
      ∀ d1 d2, NewDiff s e f1 = .ok d1 → NewDiff s e f2 = .ok d2 →
      d1.Equal d2 = true) := by
  constructor
  · simp [Diff.Equal, Bool.and_eq_true, beq_iff_eq, and_assoc]
  · intro s e f1 f2 m1 m2 h1 h2 hm d1 d2 hd1 hd2
    unfold NewDiff at hd1 hd2
    by_cases hlt : e < s
    · rw [if_pos hlt] at hd1
      exact absurd hd1 (by simp)
    · rw [if_neg hlt, h1] at hd1
      rw [if_neg hlt, h2] at hd2
      injection hd1 with hd1'
      injection hd2 with hd2'
      subst hm
      rw [← hd1', ← hd2']
      simp [Diff.Equal]

/-- C5: both construction entry points fail with the start-after-end error
exactly when start is strictly after end (for the format path this takes
precedence over format errors), and equal dates are valid with all-zero
counts. -/
theorem c5_start_after_end (s e : Int) (fmt : List Char) (mode : Nat) :
    (NewDiff s e fmt = .err .startIsAfterEnd ↔ e < s) ∧
    (NewDiffWithMode s e mode = .err .startIsAfterEnd ↔ e < s) ∧
    NewDiffWithMode s s mode = .ok ⟨0, 0, 0, 0, [], mode⟩ ∧
    (∀ m', unmarshal fmt = .ok m' →
      NewDiff s s fmt = .ok ⟨0, 0, 0, 0, fmt, m'⟩) := by
  refine ⟨?_, ?_, ?_, ?_⟩
  · constructor
    · intro h
      by_contra hlt
      unfold NewDiff at h
      rw [if_neg hlt] at h
      cases hu : unmarshal fmt with
      | ok m => rw [hu] at h; exact absurd h (by simp)
      | err e' =>
        rw [hu] at h
        have h' : UnmarshalResult.err e' = UnmarshalResult.err .startIsAfterEnd := by
          have he : e' = .startIsAfterEnd := by
            have h2 : ConstructResult.err e' =
                ConstructResult.err .startIsAfterEnd := h
            injection h2
          rw [he]
        exact unmarshal_ne_startErr fmt (hu.trans h')
      | panicked => rw [hu] at h; exact absurd h (by simp)
    · intro h
      unfold NewDiff
      rw [if_pos h]
  · unfold NewDiffWithMode
    split_ifs with h
    · simp [h]
    · simp [h]
  · unfold NewDiffWithMode
    rw [if_neg (lt_irrefl s), newDiff_self]
  · intro m' hm
    unfold NewDiff
    rw [if_neg (lt_irrefl s), hm]
    show ConstructResult.ok { newDiff s s m' with rawFormat := fmt } = _
    rw [newDiff_self]

/-- C1: with Months selected and Years not, the reported Months equals the
internal full-years difference times 12 plus the months counted from the
year-advanced cursor; in particular a format selecting only months reports
36 for an exact 3-year gap. -/
theorem c1_months_total (s e : Int) (mode : Nat)
    (hbM : mode &&& ModeMonths ≠ 0) (hbY : mode &&& ModeYears = 0) :
    (newDiff s e mode).Months =
      fullYearsDiff s e * 12 +
        fullMonthsDiff (addDate s (fullYearsDiff s e) 0 0) e ∧
    (newDiff s (addDate s 3 0 0) 64).Months = 36 := by
  constructor
  · rw [newDiff_Months]
    exact dMonths_noYears hbM hbY s e
  · rw [newDiff_Months, dMonths_noYears (by decide) (by decide) s (addDate s 3 0 0)]
    have hYe : fullYearsDiff s (addDate s 3 0 0) = 3 := by
      apply fullYearsDiff_eq le_rfl
      have h := addDate_years_strictMono s (a := 3) (b := 3 + 1) (by omega)
      omega
    rw [hYe, fullMonthsDiff_self]
    norm_num

theorem c1_months_total_witness :
    (newDiff (daysFromCivil 2000 4 17) (daysFromCivil 2003 3 16) 64).Months =
      fullYearsDiff (daysFromCivil 2000 4 17) (daysFromCivil 2003 3 16) * 12 +
        fullMonthsDiff
          (addDate (daysFromCivil 2000 4 17)
            (fullYearsDiff (daysFromCivil 2000 4 17) (daysFromCivil 2003 3 16)) 0 0)
          (daysFromCivil 2003 3 16) ∧
    (newDiff (daysFromCivil 2000 4 17)
      (addDate (daysFromCivil 2000 4 17) 3 0 0) 64).Months = 36 :=
  c1_months_total (daysFromCivil 2000 4 17) (daysFromCivil 2003 3 16) 64
    (by decide) (by decide)

/-- C2 (amended): boundary inclusivity holds per unit when that unit is the
coarsest selected one — Years always; Months when Years is not selected and
the internal year-advanced cursor does not overflow the target month;
Weeks and Days when no coarser unit is selected.  The boundary comparison
is inclusive, so a boundary landing exactly on `end` counts. -/
theorem c2_exactness_amended :
    (∀ (s N : Int) (mode : Nat), mode &&& ModeYears ≠ 0 →
      newDiff s (addDate s N 0 0) mode = ⟨N, 0, 0, 0, [], mode⟩) ∧
    (∀ (s N : Int) (mode : Nat), 0 ≤ N → mode &&& ModeMonths ≠ 0 →
      mode &&& ModeYears = 0 →
      dayOf s ≤ dimLin (monthLin s + 12 * (N / 12)) →
      newDiff s (addDate s 0 N 0) mode = ⟨0, N, 0, 0, [], mode⟩) ∧
    (∀ (s N : Int) (mode : Nat), 0 ≤ N → mode &&& ModeWeeks ≠ 0 →
      mode &&& ModeYears = 0 → mode &&& ModeMonths = 0 →
      newDiff s (addDate s 0 0 (7 * N)) mode = ⟨0, 0, N, 0, [], mode⟩) ∧
    (∀ (s N : Int) (mode : Nat), 0 ≤ N → mode &&& ModeDays ≠ 0 →
      mode &&& ModeYears = 0 → mode &&& ModeMonths = 0 →
      mode &&& ModeWeeks = 0 →
      newDiff s (addDate s 0 0 N) mode = ⟨0, 0, 0, N, [], mode⟩) :=
  ⟨fun s N mode h => newDiff_years_exact s N mode h,
   fun s N mode h0 h1 h2 h3 => newDiff_months_exact s N h0 mode h1 h2 h3,
   fun s N mode h0 h1 h2 h3 => newDiff_weeks_exact s N h0 mode h1 h2 h3,
   fun s N mode h0 h1 h2 h3 h4 => newDiff_days_exact s N h0 mode h1 h2 h3 h4⟩

theorem c2_counterexample :
    (newDiff (daysFromCivil 2000 1 1)
        (addDate (daysFromCivil 2000 1 1) 0 12 0) 192).Months = 0 ∧
    (newDiff (daysFromCivil 2000 2 29)
        (addDate (daysFromCivil 2000 2 29) 0 13 0) 64).Months = 12 := by
  constructor
  · decide
  · decide

/-- C3 (amended): with start and the unit set fixed, the reported counts are
monotone in `end` lexicographically: Years never decreases; with Years
unchanged, Months never decreases; with Years and Months unchanged, Weeks
never decreases; with those unchanged, Days never decreases. -/
theorem c3_lex_monotone (s e1 e2 : Int) (mode : Nat)
    (hs1 : s ≤ e1) (h12 : e1 ≤ e2) :
    (newDiff s e1 mode).Years ≤ (newDiff s e2 mode).Years ∧
    ((newDiff s e1 mode).Years = (newDiff s e2 mode).Years →
      (newDiff s e1 mode).Months ≤ (newDiff s e2 mode).Months) ∧
    ((newDiff s e1 mode).Years = (newDiff s e2 mode).Years →
      (newDiff s e1 mode).Months = (newDiff s e2 mode).Months →
      (newDiff s e1 mode).Weeks ≤ (newDiff s e2 mode).Weeks) ∧
    ((newDiff s e1 mode).Years = (newDiff s e2 mode).Years →
      (newDiff s e1 mode).Months = (newDiff s e2 mode).Months →
      (newDiff s e1 mode).Weeks = (newDiff s e2 mode).Weeks →
      (newDiff s e1 mode).Days ≤ (newDiff s e2 mode).Days) := by
  refine ⟨?_, ?_, ?_, ?_⟩
  · rw [newDiff_Years, newDiff_Years]
    unfold dYears
    split_ifs with hb
    · exact fullYearsDiff_mono s h12
    · exact le_refl 0
  · intro hYeq
    have hY' : dYears s e1 mode = dYears s e2 mode := hYeq
    rw [newDiff_Months, newDiff_Months]
    by_cases hbM : mode &&& ModeMonths ≠ 0
    · by_cases hbY : mode &&& ModeYears ≠ 0
      · rw [dMonths_yearsSel hbM hbY s e1, dMonths_yearsSel hbM hbY s e2,
          ← dCursor1_congr hY']
        exact fullMonthsDiff_mono _ (dCursor1_le hs1 mode) h12
      · push_neg at hbY
        rw [dMonths_noYears hbM hbY s e1, dMonths_noYears hbM hbY s e2]
        exact monthsTotal_mono s h12
    · unfold dMonths
      rw [if_neg hbM, if_neg hbM]
  · intro hYeq hMeq
    have hY' : dYears s e1 mode = dYears s e2 mode := hYeq
    have hM' : dMonths s e1 mode = dMonths s e2 mode := hMeq
    rw [newDiff_Weeks, newDiff_Weeks]
    unfold dWeeks
    split_ifs with hb
    · rw [← dCursor2_congr hY' hM']
      have hc : dCursor2 s e1 mode ≤ e1 := dCursor2_le hs1 mode
      rw [fullWeeksDiff_eq hc, fullWeeksDiff_eq (le_trans hc h12)]
      omega
    · exact le_refl 0
  · intro hYeq hMeq hWeq
    have hY' : dYears s e1 mode = dYears s e2 mode := hYeq
    have hM' : dMonths s e1 mode = dMonths s e2 mode := hMeq
    have hW' : dWeeks s e1 mode = dWeeks s e2 mode := hWeq
    rw [newDiff_Days, newDiff_Days]
    unfold dDays
    split_ifs with hb
    · rw [← dCursor3_congr hY' hM' hW']
      have hc : dCursor3 s e1 mode ≤ e1 := dCursor3_le hs1 mode
      rw [fullDaysDiff_eq hc, fullDaysDiff_eq (le_trans hc h12)]
      omega
    · exact le_refl 0

theorem c3_lex_monotone_witness :
    (newDiff 0 2 16).Years ≤ (newDiff 0 9 16).Years ∧
    ((newDiff 0 2 16).Years = (newDiff 0 9 16).Years →
      (newDiff 0 2 16).Months ≤ (newDiff 0 9 16).Months) ∧
    ((newDiff 0 2 16).Years = (newDiff 0 9 16).Years →
      (newDiff 0 2 16).Months = (newDiff 0 9 16).Months →
      (newDiff 0 2 16).Weeks ≤ (newDiff 0 9 16).Weeks) ∧
    ((newDiff 0 2 16).Years = (newDiff 0 9 16).Years →
      (newDiff 0 2 16).Months = (newDiff 0 9 16).Months →
      (newDiff 0 2 16).Weeks = (newDiff 0 9 16).Weeks →
      (newDiff 0 2 16).Days ≤ (newDiff 0 9 16).Days) :=
  c3_lex_monotone 0 2 9 16 (by decide) (by decide)

theorem c3_counterexample :
    daysFromCivil 2000 1 1 ≤ daysFromCivil 2000 12 1 ∧
    daysFromCivil 2000 12 1 ≤ daysFromCivil 2001 1 1 ∧
    (newDiff (daysFromCivil 2000 1 1) (daysFromCivil 2001 1 1) 192).Months <
      (newDiff (daysFromCivil 2000 1 1) (daysFromCivil 2000 12 1) 192).Months := by
  refine ⟨by decide, by decide, ?_⟩
  decide

/-- C6: on every canonical space-separated format over the eight verbs and
for every result, the zero-eliding renderer removes each zero-count verb
together with its one adjacent leading space (leaving no double space), and
the non-eliding renderer substitutes every verb literally, zeros included. -/
theorem c6_zero_elision (diff : Diff) (vs : List FVerb) :
    format diff (canonFormat vs) = expectedElide diff vs ∧
    formatWithZeros diff (canonFormat vs) = expectedZeros diff vs :=
  ⟨format_canon diff vs, formatWithZeros_canon diff vs⟩

/-- C7: an uppercase verb renders as the number followed by the unit noun
with a trailing plural `s` unless the count is one (0 and every other count
take the plural), and a lowercase verb renders as the bare number. -/
theorem c7_verb_rendering (diff : Diff) (u : FVerb) :
    formatWithZeros diff (canonFormat [u]) = fvRender diff u ∧
    ((fvLetter u).isUpper = true → fvCount diff u ≠ 1 →
      fvRender diff u = itoa (fvCount diff u) ++ ' ' :: (fvUnit u ++ ['s'])) ∧
    ((fvLetter u).isUpper = true → fvCount diff u = 1 →
      fvRender diff u = itoa (fvCount diff u) ++ ' ' :: fvUnit u) ∧
    ((fvLetter u).isUpper = false → fvRender diff u = itoa (fvCount diff u)) := by
  refine ⟨?_, ?_, ?_, ?_⟩
  · rw [formatWithZeros_canon]
    simp [expectedZeros, expectedZerosTail]
  · intro hup hne
    unfold fvRender
    rw [if_pos hup]
    unfold formatNoun
    rw [if_pos hne]
  · intro hup hone
    unfold fvRender
    rw [if_pos hup]
    unfold formatNoun
    rw [if_neg (fun hh => hh hone), List.append_nil]
  · intro hlow
    unfold fvRender
    rw [if_neg (by simp [hlow])]

end Datediff
